import Mathlib

/-!
Shallow embedding of the podcast assembly pipeline of `doc-to-podcast`
(`src/scripts/generate_podcast.py`, `generate_podcast_simple.py`,
`generate_podcast_coqui.py`, `combine_podcast.py`), together with proofs
settling the specification claims about it.

Modelling conventions:
* Audio durations are rationals, measured in milliseconds (`pydub`'s unit)
  unless said otherwise; the placeholder tone generator works in seconds as
  the source does.
* The filesystem is an association list from path to file data; writing a
  path overwrites any earlier entry for it, `os.remove` drops the entry.
* A speech-synthesis backend is an oracle `ℕ → String → SynthOutcome`
  telling, for a script position and its line text, whether synthesis
  succeeds and with what clip duration.  A failed call writes nothing
  (proved faithful for the remote-API variant in `textToSpeechApi`, and the
  placeholder variant never fails).
* Python `str` values are Lean `String`s; Python's `sorted` on strings is
  lexicographic by code point, which coincides with Lean's `String` order.
-/

namespace DocToPodcast

/-- A raw script entry as produced by `json.load`: the `speaker` and `line`
fields may be absent (`load_script` performs no field validation). -/
structure RawEntry where
  speaker : Option String
  line : Option String
deriving DecidableEq, Repr

/-- One piece of the assembled audio: a per-line clip (tagged with the
0-based script position it came from) or a stretch of silence. -/
inductive TimelineItem where
  | clip (ordinal : ℕ) (durMs : ℕ)
  | silence (durMs : ℕ)
deriving DecidableEq, Repr

/-- Contents of a file in the modelled filesystem. -/
inductive FileData where
  | audio (items : List TimelineItem)      -- an exported combined podcast
  | clip (durMs : ℕ)                       -- one synthesized per-line clip
  | tone (freqHz : ℕ) (samples : ℕ)        -- a placeholder WAV tone
  | listText (entries : List String)       -- an ffmpeg concat file list
  | silenceAudio (durSec : ℚ)              -- a generated silence mp3
  | concatAudio (sources : List String) (pauseSec : ℚ)
      -- the combiner's output: the named files in order, pauses between
deriving DecidableEq

/-- The filesystem: an association list from path to contents. -/
abbrev FS := List (String × FileData)

/-- Look a path up in the filesystem. -/
def lookupFile : FS → String → Option FileData
  | [], _ => none
  | (q, d) :: fs, p => if q = p then some d else lookupFile fs p

/-- Delete a path (`os.remove`). -/
def removeFile (fs : FS) (p : String) : FS :=
  fs.filter (fun e => decide (e.1 ≠ p))

/-- Write a path, overwriting any previous contents (`open(p, "wb")`). -/
def insertFile (fs : FS) (p : String) (d : FileData) : FS :=
  (p, d) :: removeFile fs p

/-- Outcome of one synthesis call, as seen by `generate_podcast`'s loop. -/
inductive SynthOutcome where
  | success (durMs : ℕ)
  | failure
deriving DecidableEq, Repr

/-- A backend oracle on which every synthesis call succeeds. -/
def mkSuccess (f : ℕ → String → ℕ) : ℕ → String → SynthOutcome :=
  fun i line => SynthOutcome.success (f i line)

/-- The fixed voice table of `PodcastGenerator.__init__`:
speaker identifier ↦ ElevenLabs voice id. -/
def voicesTable : List (String × String) :=
  [("MIGUEL", "pNInz6obpgDQGcFmaJgB"), ("SAM", "VR6AewLTigWG4xSOukaG")]

/-- The per-line temporary path `f"temp_{speaker}_{i}.mp3"`. -/
def tempPath (speaker : String) (i : ℕ) : String :=
  "temp_" ++ speaker ++ "_" ++ toString i ++ ".mp3"

/-- Mutable state threaded through `generate_podcast`: the filesystem, the
number of synthesis calls issued so far, and the audio assembled so far. -/
structure RunState where
  fs : FS
  ttsCalls : ℕ
  audio : List TimelineItem
deriving DecidableEq

/-- How a run of `generate_podcast` ends: normal completion (`return True`),
a synthesis failure (`return False`), or an uncaught `KeyError` from a
script entry missing `speaker` or `line`. -/
inductive RunResult where
  | ok (s : RunState)
  | failed (s : RunState)
  | keyError (s : RunState)
deriving DecidableEq

/-- The state carried by a run result, whichever way the run ended. -/
def RunResult.state : RunResult → RunState
  | .ok s => s
  | .failed s => s
  | .keyError s => s

/-- Whether an entry has both required fields. -/
def wellFormedEntry (e : RawEntry) : Bool :=
  e.speaker.isSome && e.line.isSome

/-- Whether an entry's speaker resolves in the voice table. -/
def resolvableEntry (e : RawEntry) : Bool :=
  match e.speaker with
  | some sp => (voicesTable.lookup sp).isSome
  | none => false

/-- The `for i, entry in enumerate(script)` loop body of
`PodcastGenerator.generate_podcast` (lines 183–210): read the `speaker` and
`line` fields (a missing one raises `KeyError`), skip unknown speakers with
a warning, otherwise call `text_to_speech` into a temporary file; on
success load the clip, append it, append an 800 ms pause when
`i < len(script) - 1`, and delete the temporary file; on failure return
`False` at once.  The clip decode (`AudioSegment.from_mp3`, line 199) is
modelled as always succeeding here; `processEntriesD` refines this with a
fallible decode step, and `processEntriesD_eq_of_decode` shows this
function is exactly its decode-never-fails projection. -/
def processEntries (synth : ℕ → String → SynthOutcome) (N : ℕ) :
    List (ℕ × RawEntry) → RunState → RunResult
  | [], s => .ok s
  | (i, e) :: rest, s =>
    match e.speaker with
    | none => .keyError s
    | some speaker =>
      match e.line with
      | none => .keyError s
      | some line =>
        if (voicesTable.lookup speaker).isSome then
          match synth i line with
          | .success dur =>
            let fs1 := insertFile s.fs (tempPath speaker i) (.clip dur)
            let audio1 := s.audio ++ [TimelineItem.clip i dur]
            let audio2 :=
              if i < N - 1 then audio1 ++ [TimelineItem.silence 800] else audio1
            let fs2 := removeFile fs1 (tempPath speaker i)
            processEntries synth N rest ⟨fs2, s.ttsCalls + 1, audio2⟩
          | .failure => .failed ⟨s.fs, s.ttsCalls + 1, s.audio⟩
        else
          processEntries synth N rest s

/-- `PodcastGenerator.generate_podcast` (lines 156–224) on an
already-loaded script: start from silence (3 s intro if requested), run the
dialogue loop, append the 2 s outro if requested, and export the combined
audio to `outputPath`. -/
def generatePodcast (synth : ℕ → String → SynthOutcome) (script : List RawEntry)
    (outputPath : String) (addIntro addOutro : Bool) (fs0 : FS) : RunResult :=
  let intro : List TimelineItem := if addIntro then [.silence 3000] else []
  match processEntries synth script.length script.enum ⟨fs0, 0, intro⟩ with
  | .ok s =>
    let final := if addOutro then s.audio ++ [.silence 2000] else s.audio
    .ok ⟨insertFile s.fs outputPath (.audio final), s.ttsCalls, final⟩
  | r => r

/-- How the script file presents itself to `load_script`. -/
inductive ScriptFile where
  | missing
  | invalidJson
  | parsed (entries : List RawEntry)

/-- The errors `load_script` can raise. -/
inductive LoadError where
  | notFound
  | formatError
deriving DecidableEq

/-- `PodcastGenerator.load_script` (lines 42–59): re-raise
`FileNotFoundError` for a missing path, `ValueError` for invalid JSON, and
otherwise return the parsed entries unchecked (no field validation). -/
def loadScript : ScriptFile → Except LoadError (List RawEntry)
  | .missing => .error .notFound
  | .invalidJson => .error .formatError
  | .parsed entries => .ok entries

/-- `generate_podcast` including the `load_script` call. -/
def generatePodcastFromFile (synth : ℕ → String → SynthOutcome)
    (sf : ScriptFile) (outputPath : String) (addIntro addOutro : Bool)
    (fs0 : FS) : Except LoadError RunResult :=
  (loadScript sf).map fun script =>
    generatePodcast synth script outputPath addIntro addOutro fs0

/-- How a run ends in the refined model that also tracks the clip-decode
step: as `RunResult`, plus an uncaught exception raised by
`AudioSegment.from_mp3` (line 199). -/
inductive RunResultD where
  | ok (s : RunState)
  | failed (s : RunState)
  | keyError (s : RunState)
  | decodeError (s : RunState)
deriving DecidableEq

/-- The state carried by a refined run result. -/
def RunResultD.state : RunResultD → RunState
  | .ok s => s
  | .failed s => s
  | .keyError s => s
  | .decodeError s => s

/-- Whether the refined run died in a clip-decode exception. -/
def RunResultD.isDecodeError : RunResultD → Bool
  | .decodeError _ => true
  | _ => false

/-- Inject an idealized run result into the refined result type. -/
def RunResult.liftD : RunResult → RunResultD
  | .ok s => .ok s
  | .failed s => .failed s
  | .keyError s => .keyError s

/-- Refinement of `processEntries` in which the clip decode
(`AudioSegment.from_mp3`, line 199) may itself raise: `decodeOk i` tells
whether decoding the clip written for script position `i` succeeds.  A
decode failure raises between the temp-file write (line 197) and
`os.remove` (line 207), so the exception propagates with the just-written
temporary file still in the filesystem and nothing appended to the
audio. -/
def processEntriesD (synth : ℕ → String → SynthOutcome)
    (decodeOk : ℕ → Bool) (N : ℕ) :
    List (ℕ × RawEntry) → RunState → RunResultD
  | [], s => .ok s
  | (i, e) :: rest, s =>
    match e.speaker with
    | none => .keyError s
    | some speaker =>
      match e.line with
      | none => .keyError s
      | some line =>
        if (voicesTable.lookup speaker).isSome then
          match synth i line with
          | .success dur =>
            let fs1 := insertFile s.fs (tempPath speaker i) (.clip dur)
            if decodeOk i then
              let audio1 := s.audio ++ [TimelineItem.clip i dur]
              let audio2 :=
                if i < N - 1 then audio1 ++ [TimelineItem.silence 800]
                else audio1
              let fs2 := removeFile fs1 (tempPath speaker i)
              processEntriesD synth decodeOk N rest ⟨fs2, s.ttsCalls + 1, audio2⟩
            else
              .decodeError ⟨fs1, s.ttsCalls + 1, s.audio⟩
          | .failure => .failed ⟨s.fs, s.ttsCalls + 1, s.audio⟩
        else
          processEntriesD synth decodeOk N rest s

/-- `PodcastGenerator.generate_podcast` over the refined loop; a decode
exception escapes before the export is reached. -/
def generatePodcastD (synth : ℕ → String → SynthOutcome)
    (decodeOk : ℕ → Bool) (script : List RawEntry) (outputPath : String)
    (addIntro addOutro : Bool) (fs0 : FS) : RunResultD :=
  let intro : List TimelineItem := if addIntro then [.silence 3000] else []
  match processEntriesD synth decodeOk script.length script.enum
      ⟨fs0, 0, intro⟩ with
  | .ok s =>
    let final := if addOutro then s.audio ++ [.silence 2000] else s.audio
    .ok ⟨insertFile s.fs outputPath (.audio final), s.ttsCalls, final⟩
  | r => r

/-! The synthesis backends of `generate_podcast.py` -/

/-- Word counting as Python's `text.split()` does it: the number of maximal
runs of non-whitespace characters.  The Boolean argument records whether
the previous character was inside a word. -/
def countWordsGo : Bool → List Char → ℕ
  | _, [] => 0
  | inWord, c :: cs =>
    if c.isWhitespace then countWordsGo false cs
    else (if inWord then 0 else 1) + countWordsGo true cs

/-- `len(text.split())`. -/
def countWords (cs : List Char) : ℕ := countWordsGo false cs

/-- What the remote synthesis HTTP call comes back with: a full audio body,
a transport-level error (`requests` raises), or an HTTP error status
(`raise_for_status` raises). -/
inductive ApiResponse where
  | success (content : ℕ)
  | transportError
  | httpError (status : ℕ)
deriving DecidableEq

/-- The remote-API branch of `PodcastGenerator.text_to_speech`
(lines 96–107): on success the response body is written at the
destination; any `RequestException` (transport or HTTP status) is caught
before the output file is opened, so nothing is written and `False` is
returned. -/
def textToSpeechApi (resp : ApiResponse) (outputPath : String) (fs : FS) :
    Bool × FS :=
  match resp with
  | .success content => (true, insertFile fs outputPath (.clip content))
  | .transportError => (false, fs)
  | .httpError _ => (false, fs)

/-- The backend oracle of the combined render when it runs on the
placeholder: every call succeeds and yields `wordCount × 300` ms of audio. -/
def placeholderSynth : ℕ → String → SynthOutcome :=
  fun _ line => .success (300 * countWords line.data)

/-! Segment mode (`generate_podcast_simple.py`) -/

/-- The voice table of `SimplePodcastGenerator.__init__`:
speaker identifier ↦ display name (the part used in segment filenames). -/
def simpleVoices : List (String × String) :=
  [("MIGUEL", "Miguel"), ("SAM", "Sam")]

/-- Decimal digits of a natural number, most significant first, computed
with enough fuel to terminate structurally (`fuel > n` suffices). -/
def natDigitsGo : ℕ → ℕ → List ℕ
  | 0, _ => []
  | fuel + 1, n => if n < 10 then [n] else natDigitsGo fuel (n / 10) ++ [n % 10]

/-- Decimal digits of `n`, most significant first (`0 ↦ [0]`). -/
def natDigits (n : ℕ) : List ℕ := natDigitsGo (n + 1) n

/-- The character for a decimal digit. -/
def digitChar (d : ℕ) : Char := Char.ofNat (48 + d)

/-- Python's `f"{n:03d}"`: the decimal representation of `n`, left-padded
with `'0'` to at least three characters. -/
def pad3 (n : ℕ) : String :=
  ⟨List.replicate (3 - (natDigits n).length) '0' ++ (natDigits n).map digitChar⟩

/-- The segment file name
`f"{i+1:03d}_{speaker}_{voice_info['name']}.mp3"` (simple generator,
line 117), for the 0-based script position `i`. -/
def segFileName (i : ℕ) (speaker name : String) : String :=
  pad3 (i + 1) ++ "_" ++ speaker ++ "_" ++ name ++ ".mp3"

/-- `os.path.join(output_dir, filename)`. -/
def segPath (outputDir : String) (i : ℕ) (speaker name : String) : String :=
  outputDir ++ "/" ++ segFileName i speaker name

/-- How a segment-mode run ends. -/
inductive SegStatus where
  | ok
  | failed
  | keyError
deriving DecidableEq, Repr

/-- The loop of `SimplePodcastGenerator.generate_podcast_segments`
(lines 104–124): for each entry read its fields, skip unknown speakers,
synthesize into `NNN_speaker_Name.mp3` inside `outputDir`, and return
`False` at once if a synthesis call fails.  The oracle `tts` yields the
written clip's duration on success and `none` on failure (a failed call
touches no other file). -/
def generateSegmentsLoop (tts : ℕ → String → Option ℕ) (outputDir : String) :
    List (ℕ × RawEntry) → FS → SegStatus × FS
  | [], fs => (.ok, fs)
  | (i, e) :: rest, fs =>
    match e.speaker with
    | none => (.keyError, fs)
    | some speaker =>
      match e.line with
      | none => (.keyError, fs)
      | some line =>
        match simpleVoices.lookup speaker with
        | some name =>
          match tts i line with
          | some dur =>
            generateSegmentsLoop tts outputDir rest
              (insertFile fs (segPath outputDir i speaker name) (.clip dur))
          | none => (.failed, fs)
        | none => generateSegmentsLoop tts outputDir rest fs

/-- `SimplePodcastGenerator.generate_podcast_segments` on a loaded script. -/
def generateSegments (tts : ℕ → String → Option ℕ) (script : List RawEntry)
    (outputDir : String) (fs0 : FS) : SegStatus × FS :=
  generateSegmentsLoop tts outputDir script.enum fs0

/-! The segment combiner (`combine_podcast.py`) -/

/-- Whether a file name matches the `*.mp3` glob. -/
def isMp3 (s : String) : Bool := ".mp3".data.isSuffixOf s.data

/-- The combiner's playback order: the `*.mp3` matches of the directory
listing, sorted lexicographically
(`sorted(glob.glob(os.path.join(segments_dir, "*.mp3")))`, line 30; every
listed path carries the same directory prefix, so sorting the paths orders
them exactly as their file names). -/
def playbackOrder (listing : List String) : List String :=
  (listing.filter isMp3).insertionSort (· ≤ ·)

/-- The concat file list written by the combiner: each segment in playback
order, with the silence artifact interleaved after every segment but the
last (lines 43–52). -/
def concatList (segs : List String) (silenceFile : String) : List String :=
  match segs with
  | [] => []
  | [a] => [a]
  | a :: rest => a :: silenceFile :: concatList rest silenceFile

/-- `"temp_file_list.txt"`. -/
def fileListPath : String := "temp_file_list.txt"

/-- `f"temp_silence_{len(segment_files)}.mp3"` (the same name every
iteration — the file is overwritten for each pause). -/
def silencePath (n : ℕ) : String := "temp_silence_" ++ toString n ++ ".mp3"

/-- Whether a path matches the `temp_silence_*.mp3` glob used at cleanup. -/
def isSilenceArtifact (s : String) : Bool :=
  "temp_silence_".data.isPrefixOf s.data && ".mp3".data.isSuffixOf s.data

/-- An intermediate artifact of the combiner: its file list or a generated
silence file. -/
def isCombinerArtifact (s : String) : Bool :=
  s = fileListPath || isSilenceArtifact s

/-- Remove every `temp_silence_*.mp3` file (lines 62–63). -/
def removeSilenceArtifacts (fs : FS) : FS :=
  fs.filter (fun e => !isSilenceArtifact e.1)

/-- `combine_podcast_segments` (lines 16–74): sort the `*.mp3` files of the
directory listing, fail if there are none, write the ffmpeg file list
(creating the shared silence artifact when there is more than one
segment), run ffmpeg concat (`ffmpegOk` is its exit status; on success it
writes the combined output), then — regardless of that status — delete the
file list and every `temp_silence_*.mp3`, and report ffmpeg's status. -/
def combinePodcastSegments (listing : List String) (outputFile : String)
    (pauseSec : ℚ) (ffmpegOk : Bool) (fs0 : FS) : Bool × FS :=
  let segs := playbackOrder listing
  if segs.isEmpty then (false, fs0)
  else
    let silence := silencePath segs.length
    let fs1 := insertFile fs0 fileListPath (.listText (concatList segs silence))
    let fs2 :=
      if segs.length > 1 then insertFile fs1 silence (.silenceAudio pauseSec)
      else fs1
    let fs3 :=
      if ffmpegOk then insertFile fs2 outputFile (.concatAudio segs pauseSec)
      else fs2
    (ffmpegOk, removeSilenceArtifacts (removeFile fs3 fileListPath))

/-! The local-model variant (`generate_podcast_coqui.py`) -/

/-- A voice profile of `CoquiPodcastGenerator.__init__`. -/
structure CoquiVoice where
  name : String
  voiceFile : String
  language : String
  speed : ℚ
deriving DecidableEq

/-- Which underlying model invocation `CoquiPodcastGenerator.text_to_speech`
performs. -/
inductive CoquiMode where
  | cloned
  | defaultVoice
deriving DecidableEq, Repr

/-- What a Coqui synthesis call produces: the Boolean returned to the
caller, the lines printed while it ran, and (for analysis, not visible to
the caller) which invocation mode was used. -/
structure CoquiResult where
  ok : Bool
  logs : List String
  mode : CoquiMode
deriving DecidableEq

/-- Everything `CoquiPodcastGenerator.text_to_speech` lets its caller see:
its return value and its printed output. -/
def CoquiResult.visible (r : CoquiResult) : Bool × List String := (r.ok, r.logs)

/-- `CoquiPodcastGenerator.text_to_speech` (lines 105–143): print the
progress line; clone from the reference sample only when voice cloning is
enabled and the sample file exists, otherwise use the model's default
voice; on success print the saved line and return `True`, on a model
exception print the error and return `False`.  `sampleExists` stands for
`os.path.exists(voice_info['voice_file'])` and `modelOk` for whether
`tts_to_file` raises. -/
def coquiTextToSpeech (useVoiceCloning sampleExists modelOk : Bool)
    (voice : CoquiVoice) (outputPath : String) : CoquiResult :=
  let mode : CoquiMode :=
    if useVoiceCloning && sampleExists then .cloned else .defaultVoice
  let progress := "  Generating speech for " ++ voice.name ++ "..."
  if modelOk then
    ⟨true, [progress, "  ✓ Saved to: " ++ outputPath], mode⟩
  else
    ⟨false, [progress, "  ✗ Error generating speech"], mode⟩

/-- The MIGUEL profile of the Coqui generator. -/
def coquiMiguel : CoquiVoice :=
  ⟨"Miguel", "voice_samples/miguel_sample.wav", "es", 9 / 10⟩

/-! Timeline measurements and the Timeline invariant -/

/-- Whether an item is a clip. -/
def isClip : TimelineItem → Bool
  | .clip _ _ => true
  | .silence _ => false

/-- Whether an item is a silence. -/
def isSilence : TimelineItem → Bool
  | .clip _ _ => false
  | .silence _ => true

/-- The number of clip items in a timeline. -/
def countClips (t : List TimelineItem) : ℕ := (t.filter isClip).length

/-- The number of inter-clip pause silences (the 800 ms ones; the intro is
3000 ms and the outro 2000 ms, so they are never counted). -/
def countPauses (t : List TimelineItem) : ℕ :=
  (t.filter (fun x => decide (x = TimelineItem.silence 800))).length

/-- The script ordinals of the clips, in timeline order. -/
def clipOrdinals (t : List TimelineItem) : List ℕ :=
  t.filterMap fun x =>
    match x with
    | .clip i _ => some i
    | .silence _ => none

/-- The total duration of a timeline, in milliseconds. -/
def totalDurationMs (t : List TimelineItem) : ℕ :=
  (t.map fun x =>
    match x with
    | .clip _ d => d
    | .silence d => d).sum

/-- Whether the item at position `k` exists and is a clip. -/
def clipAt (t : List TimelineItem) (k : ℕ) : Bool :=
  match t[k]? with
  | some x => isClip x
  | none => false

/-- Whether the item at position `k` exists and is a silence. -/
def silenceAt (t : List TimelineItem) (k : ℕ) : Bool :=
  match t[k]? with
  | some x => isSilence x
  | none => false

/-- Whether the first item exists and is a silence. -/
def headIsSilence (t : List TimelineItem) : Bool :=
  match t.head? with
  | some x => isSilence x
  | none => false

/-- Whether the last item exists and is a silence. -/
def lastIsSilence (t : List TimelineItem) : Bool :=
  match t.getLast? with
  | some x => isSilence x
  | none => false

/-- The Timeline invariant of spec §3: the first and last items are
silences exactly when the intro/outro are requested; between any two
adjacent clips sits exactly one silence, of the configured pause duration;
and no two silences are adjacent. -/
def timelineInvariant (addIntro addOutro : Bool) (pauseMs : ℕ)
    (t : List TimelineItem) : Prop :=
  (headIsSilence t = addIntro) ∧
  (lastIsSilence t = addOutro) ∧
  (∀ i j : ℕ, i < j → clipAt t i → clipAt t j →
    (∀ k, i < k → k < j → ¬ clipAt t k) →
    j = i + 2 ∧ t[i + 1]? = some (TimelineItem.silence pauseMs)) ∧
  (∀ i : ℕ, silenceAt t i → ¬ silenceAt t (i + 1))

/-! Derived descriptions of what the run produces -/

/-- What one successfully rendered line at script position `i` contributes
to the combined audio: its clip, then the 800 ms pause when
`i < N - 1` (`N` being the script length). -/
def itemsFor (N i : ℕ) (d : ℕ) : List TimelineItem :=
  TimelineItem.clip i d :: (if i < N - 1 then [TimelineItem.silence 800] else [])

/-- The audio the dialogue loop appends for the entries of `script`
enumerated from position `k`, when every synthesis call succeeds with the
durations given by `f`. -/
def bodyFrom (f : ℕ → String → ℕ) (N : ℕ) : ℕ → List RawEntry → List TimelineItem
  | _, [] => []
  | k, e :: rest =>
    (if resolvableEntry e then itemsFor N k (f k (e.line.getD "")) else [])
      ++ bodyFrom f N (k + 1) rest

/-- The number of entries whose speaker resolves. -/
def countRes (script : List RawEntry) : ℕ :=
  (script.filter resolvableEntry).length

/-- The 3 s lead-in silence, when requested. -/
def introPart (b : Bool) : List TimelineItem :=
  if b then [TimelineItem.silence 3000] else []

/-- The 2 s trail-out silence, when requested. -/
def outroPart (b : Bool) : List TimelineItem :=
  if b then [TimelineItem.silence 2000] else []

/-- The full combined timeline of a successful run. -/
def finalTimeline (f : ℕ → String → ℕ) (script : List RawEntry)
    (addIntro addOutro : Bool) : List TimelineItem :=
  introPart addIntro ++ bodyFrom f script.length 0 script ++ outroPart addOutro

/-- An alternation `clip, pause, clip, pause, …, clip`: the shape of the
dialogue body when the last script line yields a clip. -/
inductive AltBody (p : ℕ) : List TimelineItem → Prop
  | last (i : ℕ) (d : ℕ) : AltBody p [TimelineItem.clip i d]
  | step (i : ℕ) (d : ℕ) {t : List TimelineItem} (h : AltBody p t) :
      AltBody p (TimelineItem.clip i d :: TimelineItem.silence p :: t)

/-- Whether a run completed normally. -/
def RunResult.isOk : RunResult → Bool
  | .ok _ => true
  | _ => false

/-- Whether a run ended in an uncaught `KeyError`. -/
def RunResult.isKeyError : RunResult → Bool
  | .keyError _ => true
  | _ => false

/-- The segment file names a fully successful segment-mode run writes, in
the order it writes them: one per entry whose `speaker` field is present
and resolves (a malformed entry or a synthesis failure would abort the run
at that point instead). -/
def producedSegNamesFrom : ℕ → List RawEntry → List String
  | _, [] => []
  | k, e :: rest =>
    (match e.speaker with
      | some sp =>
        (match simpleVoices.lookup sp with
          | some name => [segFileName k sp name]
          | none => [])
      | none => [])
      ++ producedSegNamesFrom (k + 1) rest

/-- The segment file names produced for a script, in script order. -/
def producedSegNames (script : List RawEntry) : List String :=
  producedSegNamesFrom 0 script

/-- The placeholder clip duration for a line, in milliseconds. -/
def placeholderDurMs (line : String) : ℕ := 300 * countWords line.data

/-! Concrete fixtures used by witnesses and counterexamples -/

/-- `[{"speaker": "A", "line": "hello"}, {"speaker": "B", "line": "world"}]`
with the two resolvable speakers of the voice table standing in for A/B. -/
def scriptHelloWorld : List RawEntry :=
  [⟨some "MIGUEL", some "hello"⟩, ⟨some "SAM", some "world"⟩]

/-- A 3-line script whose middle speaker is unknown. -/
def scriptMiddleUnknown : List RawEntry :=
  [⟨some "MIGUEL", some "hola"⟩, ⟨some "NADIE", some "que tal"⟩,
    ⟨some "SAM", some "adios"⟩]

/-- A 2-line script whose trailing speaker is unknown. -/
def scriptTrailingUnknown : List RawEntry :=
  [⟨some "MIGUEL", some "hola"⟩, ⟨some "NADIE", some "x"⟩]

/-- A 2-line script whose second entry is missing its `line` field. -/
def scriptMissingLine : List RawEntry :=
  [⟨some "MIGUEL", some "hola"⟩, ⟨some "SAM", none⟩]

/-- A 3-line script of resolvable speakers. -/
def scriptThreeLines : List RawEntry :=
  [⟨some "MIGUEL", some "hola"⟩, ⟨some "SAM", some "buenas"⟩,
    ⟨some "MIGUEL", some "adios"⟩]

/-- A backend that fails exactly on the second line (script position 1). -/
def synthFailsAt1 : ℕ → String → SynthOutcome :=
  fun i _ => if i = 1 then .failure else .success 300

/-- A segment-mode backend that fails exactly on the second line. -/
def ttsFailsAt1 : ℕ → String → Option ℕ :=
  fun i _ => if i = 1 then none else some 300

/-- A 1000-line script (every line resolvable and well-formed). -/
def scriptThousand : List RawEntry :=
  List.replicate 1000 ⟨some "MIGUEL", some "hola"⟩

/-! Filesystem lemmas -/

theorem lookupFile_removeFile (fs : FS) (p q : String) :
    lookupFile (removeFile fs q) p =
      if p = q then none else lookupFile fs p := by
  induction fs with
  | nil => split <;> rfl
  | cons e fs ih =>
    obtain ⟨r, d⟩ := e
    by_cases hrq : r = q
    · have h1 : removeFile ((r, d) :: fs) q = removeFile fs q := by
        simp [removeFile, List.filter_cons, hrq]
      rw [h1, ih]
      by_cases hpq : p = q
      · simp [hpq]
      · have hrp : ¬ r = p := by rw [hrq]; exact fun h => hpq h.symm
        simp [hpq, lookupFile, hrp]
    · have h1 : removeFile ((r, d) :: fs) q = (r, d) :: removeFile fs q := by
        simp [removeFile, List.filter_cons, hrq]
      rw [h1]
      by_cases hrp : r = p
      · subst hrp
        simp [lookupFile, hrq]
      · simp [lookupFile, hrp, ih]

theorem lookupFile_insert_ne (fs : FS) (p q : String) (d : FileData)
    (h : p ≠ q) : lookupFile (insertFile fs q d) p = lookupFile fs p := by
  have hqp : ¬ q = p := fun hq => h hq.symm
  simp [insertFile, lookupFile, hqp, lookupFile_removeFile, h]

theorem removeFile_eq_self (fs : FS) (p : String)
    (h : lookupFile fs p = none) : removeFile fs p = fs := by
  induction fs with
  | nil => rfl
  | cons e fs ih =>
    obtain ⟨q, d⟩ := e
    simp only [lookupFile] at h
    by_cases hqp : q = p
    · simp [hqp] at h
    · simp only [removeFile, List.filter_cons, decide_eq_true_eq]
      rw [if_pos hqp]
      have := ih (by simpa [hqp] using h)
      simpa [removeFile] using this

theorem removeFile_insertFile (fs : FS) (p : String) (d : FileData) :
    removeFile (insertFile fs p d) p = removeFile fs p := by
  simp [insertFile, removeFile, List.filter_cons, List.filter_filter]

/-! Characterizing the dialogue loop of `generate_podcast` -/

theorem processEntries_cons (synth : ℕ → String → SynthOutcome) (N i : ℕ)
    (sp ln : String) (rest : List (ℕ × RawEntry)) (s : RunState) :
    processEntries synth N ((i, ⟨some sp, some ln⟩) :: rest) s =
      if (voicesTable.lookup sp).isSome then
        match synth i ln with
        | .success dur =>
          processEntries synth N rest
            ⟨removeFile (insertFile s.fs (tempPath sp i) (.clip dur))
                (tempPath sp i),
              s.ttsCalls + 1,
              if i < N - 1
                then (s.audio ++ [TimelineItem.clip i dur]) ++
                  [TimelineItem.silence 800]
                else s.audio ++ [TimelineItem.clip i dur]⟩
        | .failure => .failed ⟨s.fs, s.ttsCalls + 1, s.audio⟩
      else processEntries synth N rest s := rfl

theorem processEntries_cons_noSpeaker (synth : ℕ → String → SynthOutcome)
    (N i : ℕ) (eln : Option String) (rest : List (ℕ × RawEntry)) (s : RunState) :
    processEntries synth N ((i, ⟨none, eln⟩) :: rest) s = .keyError s := rfl

theorem processEntries_cons_noLine (synth : ℕ → String → SynthOutcome)
    (N i : ℕ) (sp : String) (rest : List (ℕ × RawEntry)) (s : RunState) :
    processEntries synth N ((i, ⟨some sp, none⟩) :: rest) s = .keyError s := rfl

theorem processEntries_ok (f : ℕ → String → ℕ) (N : ℕ) :
    ∀ (script : List RawEntry) (k : ℕ) (s : RunState),
      (∀ e ∈ script, wellFormedEntry e = true) →
      ∃ fs', processEntries (mkSuccess f) N (List.enumFrom k script) s =
        .ok ⟨fs', s.ttsCalls + countRes script,
          s.audio ++ bodyFrom f N k script⟩ := by
  intro script
  induction script with
  | nil =>
    intro k s _
    exact ⟨s.fs, by simp [processEntries, countRes, bodyFrom]⟩
  | cons e rest ih =>
    intro k s hwf
    obtain ⟨esp, eln⟩ := e
    have hwfe := hwf _ (List.mem_cons_self _ rest)
    simp only [wellFormedEntry, Bool.and_eq_true, Option.isSome_iff_exists] at hwfe
    obtain ⟨⟨sp, hsp⟩, ln, hln⟩ := hwfe
    subst hsp
    subst hln
    have hwfr : ∀ e' ∈ rest, wellFormedEntry e' = true :=
      fun e' he' => hwf e' (List.mem_cons_of_mem _ he')
    rw [List.enumFrom_cons]
    by_cases hres : (voicesTable.lookup sp).isSome
    · obtain ⟨fs', hrec⟩ := ih (k + 1)
        ⟨removeFile (insertFile s.fs (tempPath sp k) (.clip (f k ln)))
            (tempPath sp k),
          s.ttsCalls + 1,
          (if k < N - 1
            then (s.audio ++ [TimelineItem.clip k (f k ln)]) ++
              [TimelineItem.silence 800]
            else s.audio ++ [TimelineItem.clip k (f k ln)])⟩
        hwfr
      refine ⟨fs', ?_⟩
      rw [processEntries_cons, if_pos hres]
      simp only [mkSuccess]
      rw [hrec]
      have hcount : countRes (⟨some sp, some ln⟩ :: rest) = countRes rest + 1 := by
        simp [countRes, List.filter_cons, resolvableEntry, hres]
      have hbody : bodyFrom f N k (⟨some sp, some ln⟩ :: rest) =
          (TimelineItem.clip k (f k ln) ::
            (if k < N - 1 then [TimelineItem.silence 800] else [])) ++
            bodyFrom f N (k + 1) rest := by
        simp [bodyFrom, resolvableEntry, hres, itemsFor]
      rw [hcount, hbody]
      simp only [RunResult.ok.injEq, RunState.mk.injEq]
      refine ⟨trivial, by omega, ?_⟩
      by_cases hk : k < N - 1 <;> simp [hk]
    · obtain ⟨fs', hrec⟩ := ih (k + 1) s hwfr
      refine ⟨fs', ?_⟩
      rw [processEntries_cons, if_neg hres]
      rw [hrec]
      have hcount : countRes (⟨some sp, some ln⟩ :: rest) = countRes rest := by
        simp [countRes, List.filter_cons, resolvableEntry, hres]
      have hbody : bodyFrom f N k (⟨some sp, some ln⟩ :: rest) =
          bodyFrom f N (k + 1) rest := by
        simp [bodyFrom, resolvableEntry, hres]
      rw [hcount, hbody]

theorem processEntries_fs (synth : ℕ → String → SynthOutcome) (N : ℕ) :
    ∀ (l : List (ℕ × RawEntry)) (s : RunState),
      (∀ sp i, lookupFile s.fs (tempPath sp i) = none) →
      (processEntries synth N l s).state.fs = s.fs := by
  intro l
  induction l with
  | nil => intro s _; rfl
  | cons p rest ih =>
    intro s htmp
    obtain ⟨i, e⟩ := p
    obtain ⟨esp, eln⟩ := e
    match esp, eln with
    | none, eln => simp [processEntries_cons_noSpeaker, RunResult.state]
    | some sp, none => simp [processEntries_cons_noLine, RunResult.state]
    | some sp, some ln =>
      rw [processEntries_cons]
      by_cases hres : (voicesTable.lookup sp).isSome
      · rw [if_pos hres]
        match hsy : synth i ln with
        | .failure => rfl
        | .success dur =>
          dsimp only
          have hfs : removeFile
              (insertFile s.fs (tempPath sp i) (.clip dur)) (tempPath sp i) =
              s.fs := by
            rw [removeFile_insertFile]
            exact removeFile_eq_self _ _ (htmp sp i)
          rw [hfs]
          exact ih _ htmp
      · rw [if_neg hres]
        exact ih s htmp

theorem processEntries_failed (synth : ℕ → String → SynthOutcome) (N : ℕ) :
    ∀ (l : List (ℕ × RawEntry)) (s : RunState),
      (∀ p ∈ l, wellFormedEntry p.2 = true) →
      (∃ p ∈ l, resolvableEntry p.2 = true ∧
        synth p.1 (p.2.line.getD "") = .failure) →
      ∃ st, processEntries synth N l s = .failed st := by
  intro l
  induction l with
  | nil => intro s _ hex; simp at hex
  | cons p rest ih =>
    intro s hwf hex
    obtain ⟨i, e⟩ := p
    obtain ⟨esp, eln⟩ := e
    have hwfe := hwf _ (List.mem_cons_self _ rest)
    simp only [wellFormedEntry, Bool.and_eq_true, Option.isSome_iff_exists] at hwfe
    obtain ⟨⟨sp, hsp⟩, ln, hln⟩ := hwfe
    subst hsp
    subst hln
    rw [processEntries_cons]
    by_cases hres : (voicesTable.lookup sp).isSome
    · rw [if_pos hres]
      match hsy : synth i ln with
      | .failure => exact ⟨_, rfl⟩
      | .success dur =>
        refine ih _ (fun q hq => hwf q (List.mem_cons_of_mem _ hq)) ?_
        obtain ⟨q, hql, hqres, hqfail⟩ := hex
        rcases List.mem_cons.mp hql with rfl | hqrest
        · simp only [Option.getD_some] at hqfail
          rw [hqfail] at hsy
          cases hsy
        · exact ⟨q, hqrest, hqres, hqfail⟩
    · rw [if_neg hres]
      refine ih s (fun q hq => hwf q (List.mem_cons_of_mem _ hq)) ?_
      obtain ⟨q, hql, hqres, hqfail⟩ := hex
      rcases List.mem_cons.mp hql with rfl | hqrest
      · rw [resolvableEntry] at hqres
        simp only at hqres
        rw [hqres] at hres
        exact absurd rfl hres
      · exact ⟨q, hqrest, hqres, hqfail⟩

theorem processEntries_keyError (f : ℕ → String → ℕ) (N : ℕ) :
    ∀ (pre : List RawEntry) (bad : RawEntry) (tail : List RawEntry)
      (k : ℕ) (s : RunState),
      (∀ e ∈ pre, wellFormedEntry e = true) →
      wellFormedEntry bad = false →
      ∃ st, processEntries (mkSuccess f) N
          (List.enumFrom k (pre ++ bad :: tail)) s = .keyError st ∧
        st.ttsCalls = s.ttsCalls + countRes pre := by
  intro pre
  induction pre with
  | nil =>
    intro bad tail k s _ hbad
    obtain ⟨bsp, bln⟩ := bad
    simp only [List.nil_append]
    rw [List.enumFrom_cons]
    match bsp, bln, hbad with
    | none, bln, _ =>
      exact ⟨s, processEntries_cons_noSpeaker .., by simp [countRes]⟩
    | some sp, none, _ =>
      exact ⟨s, processEntries_cons_noLine .., by simp [countRes]⟩
    | some sp, some ln, hbad => simp [wellFormedEntry] at hbad
  | cons e pre ih =>
    intro bad tail k s hwf hbad
    obtain ⟨esp, eln⟩ := e
    have hwfe := hwf _ (List.mem_cons_self _ pre)
    simp only [wellFormedEntry, Bool.and_eq_true, Option.isSome_iff_exists] at hwfe
    obtain ⟨⟨sp, hsp⟩, ln, hln⟩ := hwfe
    subst hsp
    subst hln
    have hwfr : ∀ e' ∈ pre, wellFormedEntry e' = true :=
      fun e' he' => hwf e' (List.mem_cons_of_mem _ he')
    simp only [List.cons_append]
    rw [List.enumFrom_cons, processEntries_cons]
    by_cases hres : (voicesTable.lookup sp).isSome
    · rw [if_pos hres]
      simp only [mkSuccess]
      obtain ⟨st, hst, hcalls⟩ := ih bad tail (k + 1)
        ⟨removeFile (insertFile s.fs (tempPath sp k) (.clip (f k ln)))
            (tempPath sp k),
          s.ttsCalls + 1,
          (if k < N - 1
            then (s.audio ++ [TimelineItem.clip k (f k ln)]) ++
              [TimelineItem.silence 800]
            else s.audio ++ [TimelineItem.clip k (f k ln)])⟩
        hwfr hbad
      refine ⟨st, hst, ?_⟩
      rw [hcalls]
      have : countRes (⟨some sp, some ln⟩ :: pre) = countRes pre + 1 := by
        simp [countRes, List.filter_cons, resolvableEntry, hres]
      simp only at hcalls ⊢
      omega
    · rw [if_neg hres]
      obtain ⟨st, hst, hcalls⟩ := ih bad tail (k + 1) s hwfr hbad
      refine ⟨st, hst, ?_⟩
      rw [hcalls]
      have : countRes (⟨some sp, some ln⟩ :: pre) = countRes pre := by
        simp [countRes, List.filter_cons, resolvableEntry, hres]
      omega

/-! `generate_podcast` as a whole -/

theorem generatePodcast_ok (f : ℕ → String → ℕ) (script : List RawEntry)
    (out : String) (addIntro addOutro : Bool) (fs0 : FS)
    (hwf : ∀ e ∈ script, wellFormedEntry e = true) :
    ∃ fs', generatePodcast (mkSuccess f) script out addIntro addOutro fs0 =
      .ok ⟨fs', countRes script, finalTimeline f script addIntro addOutro⟩ := by
  obtain ⟨fs', hrun⟩ := processEntries_ok f script.length script 0
    ⟨fs0, 0, introPart addIntro⟩ hwf
  simp only [introPart] at hrun
  refine ⟨insertFile fs' out
    (.audio (finalTimeline f script addIntro addOutro)), ?_⟩
  unfold generatePodcast
  dsimp only
  rw [show script.enum = List.enumFrom 0 script from rfl, hrun]
  by_cases ho : addOutro <;>
    simp [ho, finalTimeline, introPart, outroPart, List.append_assoc]

theorem generatePodcast_failed (synth : ℕ → String → SynthOutcome)
    (script : List RawEntry) (out : String) (addIntro addOutro : Bool)
    (fs0 : FS)
    (hwf : ∀ e ∈ script, wellFormedEntry e = true)
    (htmp : ∀ sp i, lookupFile fs0 (tempPath sp i) = none)
    (hex : ∃ p ∈ script.enum, resolvableEntry p.2 = true ∧
      synth p.1 (p.2.line.getD "") = .failure) :
    ∃ st, generatePodcast synth script out addIntro addOutro fs0 =
      .failed st ∧ st.fs = fs0 := by
  have hwf' : ∀ p ∈ script.enum, wellFormedEntry p.2 = true := by
    intro p hp
    obtain ⟨i, e⟩ := p
    obtain ⟨_, _, he⟩ := List.mem_enumFrom hp
    exact hwf e (he ▸ List.getElem_mem _)
  obtain ⟨st, hst⟩ := processEntries_failed synth script.length script.enum
    ⟨fs0, 0, introPart addIntro⟩ hwf' hex
  have hfs := processEntries_fs synth script.length script.enum
    ⟨fs0, 0, introPart addIntro⟩ htmp
  rw [hst] at hfs
  refine ⟨st, ?_, hfs⟩
  unfold generatePodcast
  dsimp only
  simp only [introPart] at hst
  rw [show script.enum = List.enumFrom 0 script from rfl] at hst ⊢
  rw [hst]

theorem generatePodcast_keyError (f : ℕ → String → ℕ)
    (pre : List RawEntry) (bad : RawEntry) (tail : List RawEntry)
    (out : String) (addIntro addOutro : Bool) (fs0 : FS)
    (hwf : ∀ e ∈ pre, wellFormedEntry e = true)
    (hbad : wellFormedEntry bad = false) :
    ∃ st, generatePodcast (mkSuccess f) (pre ++ bad :: tail) out
        addIntro addOutro fs0 = .keyError st ∧
      st.ttsCalls = countRes pre := by
  obtain ⟨st, hst, hcalls⟩ := processEntries_keyError f
    (pre ++ bad :: tail).length pre bad tail 0
    ⟨fs0, 0, introPart addIntro⟩ hwf hbad
  refine ⟨st, ?_, by simpa using hcalls⟩
  unfold generatePodcast
  dsimp only
  simp only [introPart] at hst
  rw [show (pre ++ bad :: tail).enum = List.enumFrom 0 (pre ++ bad :: tail)
    from rfl, hst]

/-! The refined dialogue loop with a fallible clip decode (C10) -/

theorem processEntriesD_cons (synth : ℕ → String → SynthOutcome)
    (decodeOk : ℕ → Bool) (N i : ℕ) (sp ln : String)
    (rest : List (ℕ × RawEntry)) (s : RunState) :
    processEntriesD synth decodeOk N ((i, ⟨some sp, some ln⟩) :: rest) s =
      if (voicesTable.lookup sp).isSome then
        match synth i ln with
        | .success dur =>
          if decodeOk i then
            processEntriesD synth decodeOk N rest
              ⟨removeFile (insertFile s.fs (tempPath sp i) (.clip dur))
                  (tempPath sp i),
                s.ttsCalls + 1,
                if i < N - 1
                  then (s.audio ++ [TimelineItem.clip i dur]) ++
                    [TimelineItem.silence 800]
                  else s.audio ++ [TimelineItem.clip i dur]⟩
          else
            .decodeError ⟨insertFile s.fs (tempPath sp i) (.clip dur),
              s.ttsCalls + 1, s.audio⟩
        | .failure => .failed ⟨s.fs, s.ttsCalls + 1, s.audio⟩
      else processEntriesD synth decodeOk N rest s := rfl

theorem processEntriesD_cons_noSpeaker (synth : ℕ → String → SynthOutcome)
    (decodeOk : ℕ → Bool) (N i : ℕ) (eln : Option String)
    (rest : List (ℕ × RawEntry)) (s : RunState) :
    processEntriesD synth decodeOk N ((i, ⟨none, eln⟩) :: rest) s =
      .keyError s := rfl

theorem processEntriesD_cons_noLine (synth : ℕ → String → SynthOutcome)
    (decodeOk : ℕ → Bool) (N i : ℕ) (sp : String)
    (rest : List (ℕ × RawEntry)) (s : RunState) :
    processEntriesD synth decodeOk N ((i, ⟨some sp, none⟩) :: rest) s =
      .keyError s := rfl

/-- When no clip decode ever fails, the refined loop is exactly the
idealized one: `processEntries` is the decode-never-fails projection of
`processEntriesD`. -/
theorem processEntriesD_eq_of_decode (synth : ℕ → String → SynthOutcome)
    (decodeOk : ℕ → Bool) (N : ℕ) (hdec : ∀ i, decodeOk i = true) :
    ∀ (l : List (ℕ × RawEntry)) (s : RunState),
      processEntriesD synth decodeOk N l s =
        (processEntries synth N l s).liftD := by
  intro l
  induction l with
  | nil => intro s; rfl
  | cons p rest ih =>
    intro s
    obtain ⟨i, e⟩ := p
    obtain ⟨esp, eln⟩ := e
    match esp, eln with
    | none, eln => rfl
    | some sp, none => rfl
    | some sp, some ln =>
      rw [processEntriesD_cons, processEntries_cons]
      by_cases hres : (voicesTable.lookup sp).isSome
      · rw [if_pos hres, if_pos hres]
        cases hsy : synth i ln with
        | success dur =>
          dsimp only
          rw [if_pos (hdec i)]
          exact ih _
        | failure => rfl
      · rw [if_neg hres, if_neg hres]
        exact ih s

/-- As long as the refined run does not end in a clip-decode exception,
its filesystem comes back unchanged (given no stray temp files to start
with): each completed iteration deletes its temp file, a synthesis
failure writes nothing, and a missing field writes nothing. -/
theorem processEntriesD_fs (synth : ℕ → String → SynthOutcome)
    (decodeOk : ℕ → Bool) (N : ℕ) :
    ∀ (l : List (ℕ × RawEntry)) (s : RunState),
      (∀ sp i, lookupFile s.fs (tempPath sp i) = none) →
      (processEntriesD synth decodeOk N l s).isDecodeError = false →
      (processEntriesD synth decodeOk N l s).state.fs = s.fs := by
  intro l
  induction l with
  | nil => intro s _ _; rfl
  | cons p rest ih =>
    intro s htmp hnd
    obtain ⟨i, e⟩ := p
    obtain ⟨esp, eln⟩ := e
    match esp, eln with
    | none, eln => simp [processEntriesD_cons_noSpeaker, RunResultD.state]
    | some sp, none => simp [processEntriesD_cons_noLine, RunResultD.state]
    | some sp, some ln =>
      rw [processEntriesD_cons] at hnd ⊢
      by_cases hres : (voicesTable.lookup sp).isSome
      · rw [if_pos hres] at hnd ⊢
        cases hsy : synth i ln with
        | failure => rfl
        | success dur =>
          rw [hsy] at hnd
          dsimp only at hnd ⊢
          by_cases hdec : decodeOk i
          · rw [if_pos hdec] at hnd ⊢
            have hfs : removeFile
                (insertFile s.fs (tempPath sp i) (.clip dur))
                (tempPath sp i) = s.fs := by
              rw [removeFile_insertFile]
              exact removeFile_eq_self _ _ (htmp sp i)
            rw [hfs] at hnd ⊢
            exact ih _ htmp hnd
          · rw [if_neg hdec] at hnd
            simp [RunResultD.isDecodeError] at hnd
      · rw [if_neg hres] at hnd ⊢
        exact ih s htmp hnd

/-- Every temp path is absent after a refined run that does not end in a
clip-decode exception. -/
theorem generatePodcastD_no_temp (synth : ℕ → String → SynthOutcome)
    (decodeOk : ℕ → Bool) (script : List RawEntry) (out : String)
    (addIntro addOutro : Bool) (fs0 : FS)
    (htmp : ∀ sp i, lookupFile fs0 (tempPath sp i) = none)
    (hout : ∀ sp i, tempPath sp i ≠ out)
    (hnd : (generatePodcastD synth decodeOk script out addIntro addOutro
      fs0).isDecodeError = false) :
    ∀ sp i, lookupFile
      (generatePodcastD synth decodeOk script out addIntro addOutro
        fs0).state.fs (tempPath sp i) = none := by
  intro sp i
  have hfs := processEntriesD_fs synth decodeOk script.length script.enum
    ⟨fs0, 0, if addIntro then [TimelineItem.silence 3000] else []⟩ htmp
  unfold generatePodcastD at hnd ⊢
  dsimp only at hnd ⊢
  cases hres : processEntriesD synth decodeOk script.length script.enum
      ⟨fs0, 0, if addIntro then [TimelineItem.silence 3000] else []⟩ with
  | ok s =>
    rw [hres] at hfs
    have hfs' := hfs rfl
    simp only [RunResultD.state] at hfs' ⊢
    rw [lookupFile_insert_ne _ _ _ _ (hout sp i), hfs']
    exact htmp sp i
  | failed s =>
    rw [hres] at hfs
    have hfs' := hfs rfl
    simp only [RunResultD.state] at hfs' ⊢
    rw [hfs']
    exact htmp sp i
  | keyError s =>
    rw [hres] at hfs
    have hfs' := hfs rfl
    simp only [RunResultD.state] at hfs' ⊢
    rw [hfs']
    exact htmp sp i
  | decodeError s =>
    rw [hres] at hnd
    simp [RunResultD.isDecodeError] at hnd

/-! Counting clips and pauses in the assembled timeline -/

theorem countClips_append (t u : List TimelineItem) :
    countClips (t ++ u) = countClips t + countClips u := by
  simp [countClips]

theorem countPauses_append (t u : List TimelineItem) :
    countPauses (t ++ u) = countPauses t + countPauses u := by
  simp [countPauses]

theorem clipOrdinals_append (t u : List TimelineItem) :
    clipOrdinals (t ++ u) = clipOrdinals t ++ clipOrdinals u := by
  simp [clipOrdinals]

theorem countClips_introPart (b : Bool) : countClips (introPart b) = 0 := by
  cases b <;> simp [introPart, countClips, isClip]

theorem countClips_outroPart (b : Bool) : countClips (outroPart b) = 0 := by
  cases b <;> simp [outroPart, countClips, isClip]

theorem countPauses_introPart (b : Bool) : countPauses (introPart b) = 0 := by
  cases b <;> simp [introPart, countPauses]

theorem countPauses_outroPart (b : Bool) : countPauses (outroPart b) = 0 := by
  cases b <;> simp [outroPart, countPauses]

theorem clipOrdinals_introPart (b : Bool) : clipOrdinals (introPart b) = [] := by
  cases b <;> simp [introPart, clipOrdinals]

theorem clipOrdinals_outroPart (b : Bool) : clipOrdinals (outroPart b) = [] := by
  cases b <;> simp [outroPart, clipOrdinals]

theorem countClips_itemsFor (N i : ℕ) (d : ℕ) :
    countClips (itemsFor N i d) = 1 := by
  by_cases h : i < N - 1 <;> simp [itemsFor, h, countClips, isClip]

theorem countPauses_itemsFor (N i : ℕ) (d : ℕ) :
    countPauses (itemsFor N i d) = if i < N - 1 then 1 else 0 := by
  by_cases h : i < N - 1 <;> simp [itemsFor, h, countPauses]

theorem clipOrdinals_itemsFor (N i : ℕ) (d : ℕ) :
    clipOrdinals (itemsFor N i d) = [i] := by
  by_cases h : i < N - 1 <;> simp [itemsFor, h, clipOrdinals]

theorem countClips_bodyFrom (f : ℕ → String → ℕ) (N : ℕ) :
    ∀ (script : List RawEntry) (k : ℕ),
      countClips (bodyFrom f N k script) = countRes script := by
  intro script
  induction script with
  | nil => intro k; simp [bodyFrom, countClips, countRes]
  | cons e rest ih =>
    intro k
    by_cases hres : resolvableEntry e
    · simp [bodyFrom, hres, countClips_append, countClips_itemsFor, ih,
        countRes, List.filter_cons]
      omega
    · simp [bodyFrom, hres, countClips_append, countClips_itemsFor, ih,
        countRes, List.filter_cons]

theorem countPauses_bodyFrom (f : ℕ → String → ℕ) (N : ℕ) :
    ∀ (script : List RawEntry) (k : ℕ),
      (∀ e ∈ script, resolvableEntry e = true) →
      k + script.length = N →
      countPauses (bodyFrom f N k script) = script.length - 1 := by
  intro script
  induction script with
  | nil => intro k _ _; simp [bodyFrom, countPauses]
  | cons e rest ih =>
    intro k hres hlen
    have he : resolvableEntry e = true := hres e (List.mem_cons_self _ _)
    have hrest : ∀ e' ∈ rest, resolvableEntry e' = true :=
      fun e' h => hres e' (List.mem_cons_of_mem _ h)
    simp only [List.length_cons] at hlen
    rw [show bodyFrom f N k (e :: rest) =
      itemsFor N k (f k (e.line.getD "")) ++ bodyFrom f N (k + 1) rest by
        simp [bodyFrom, he]]
    rw [countPauses_append, countPauses_itemsFor,
      ih (k + 1) hrest (by omega)]
    cases rest with
    | nil =>
      simp only [List.length_nil] at hlen
      have : ¬ k < N - 1 := by omega
      simp [this]
    | cons e' rest' =>
      have : k < N - 1 := by simp at hlen; omega
      simp only [List.length_cons]
      rw [if_pos this]
      omega

theorem clipOrdinals_bodyFrom (f : ℕ → String → ℕ) (N : ℕ) :
    ∀ (script : List RawEntry) (k : ℕ),
      (∀ e ∈ script, resolvableEntry e = true) →
      clipOrdinals (bodyFrom f N k script) = List.range' k script.length := by
  intro script
  induction script with
  | nil => intro k _; simp [bodyFrom, clipOrdinals]
  | cons e rest ih =>
    intro k hres
    have he : resolvableEntry e = true := hres e (List.mem_cons_self _ _)
    have hrest : ∀ e' ∈ rest, resolvableEntry e' = true :=
      fun e' h => hres e' (List.mem_cons_of_mem _ h)
    rw [show bodyFrom f N k (e :: rest) =
      itemsFor N k (f k (e.line.getD "")) ++ bodyFrom f N (k + 1) rest by
        simp [bodyFrom, he]]
    rw [clipOrdinals_append, clipOrdinals_itemsFor, ih (k + 1) hrest]
    simp [List.range'_succ]

theorem countRes_eq_length (script : List RawEntry)
    (hres : ∀ e ∈ script, resolvableEntry e = true) :
    countRes script = script.length := by
  unfold countRes
  rw [List.filter_eq_self.mpr hres]

/-- C1. For every valid script in which every speaker resolves, a
successful combined render yields exactly `N` clips in script order
interleaved with exactly `N − 1` inter-clip pauses, plus the intro and
outro silences when those flags are set; and unknown-speaker lines are
excluded from the clip count without aborting: the 3-line script with one
unknown speaker still completes and yields exactly 2 clips. -/
theorem c1_render_counts :
    (∀ (f : ℕ → String → ℕ) (script : List RawEntry) (out : String)
      (addIntro addOutro : Bool) (fs0 : FS),
      (∀ e ∈ script, wellFormedEntry e = true) →
      (∀ e ∈ script, resolvableEntry e = true) →
      ∃ st, generatePodcast (mkSuccess f) script out addIntro addOutro fs0 =
          .ok st ∧
        countClips st.audio = script.length ∧
        countPauses st.audio = script.length - 1 ∧
        clipOrdinals st.audio = List.range script.length ∧
        (addIntro = true → st.audio.head? = some (TimelineItem.silence 3000)) ∧
        (addOutro = true →
          st.audio.getLast? = some (TimelineItem.silence 2000))) ∧
    (generatePodcast placeholderSynth scriptMiddleUnknown "podcast.mp3"
        true true []).isOk = true ∧
    countClips (generatePodcast placeholderSynth scriptMiddleUnknown
        "podcast.mp3" true true []).state.audio = 2 := by
  refine ⟨?_, by decide, by decide⟩
  intro f script out addIntro addOutro fs0 hwf hres
  obtain ⟨fs', hrun⟩ :=
    generatePodcast_ok f script out addIntro addOutro fs0 hwf
  refine ⟨_, hrun, ?_, ?_, ?_, ?_, ?_⟩
  · simp only [finalTimeline, countClips_append, countClips_introPart,
      countClips_outroPart, countClips_bodyFrom]
    simpa using countRes_eq_length script hres
  · simp only [finalTimeline, countPauses_append, countPauses_introPart,
      countPauses_outroPart]
    simpa using countPauses_bodyFrom f script.length script 0 hres (by omega)
  · simp only [finalTimeline, clipOrdinals_append, clipOrdinals_introPart,
      clipOrdinals_outroPart, List.append_nil, List.nil_append]
    rw [clipOrdinals_bodyFrom f script.length script 0 hres,
      List.range_eq_range']
  · intro hi
    simp [finalTimeline, introPart, hi]
  · intro ho
    simp only [finalTimeline, outroPart, ho, if_true]
    rw [List.getLast?_concat]

/-! The Timeline invariant for well-ended scripts (C2) -/

theorem clipAt_cons_zero (x : TimelineItem) (t : List TimelineItem) :
    clipAt (x :: t) 0 = isClip x := by
  simp [clipAt]

theorem clipAt_cons_succ (x : TimelineItem) (t : List TimelineItem) (k : ℕ) :
    clipAt (x :: t) (k + 1) = clipAt t k := by
  simp [clipAt]

theorem silenceAt_cons_zero (x : TimelineItem) (t : List TimelineItem) :
    silenceAt (x :: t) 0 = isSilence x := by
  simp [silenceAt]

theorem silenceAt_cons_succ (x : TimelineItem) (t : List TimelineItem) (k : ℕ) :
    silenceAt (x :: t) (k + 1) = silenceAt t k := by
  simp [silenceAt]

theorem clipAt_append_silence (t : List TimelineItem) (d : ℕ) (k : ℕ) :
    clipAt (t ++ [TimelineItem.silence d]) k = clipAt t k := by
  unfold clipAt
  by_cases h : k < t.length
  · rw [List.getElem?_append, if_pos h]
  · rw [List.getElem?_append, if_neg h]
    rw [List.getElem?_eq_none (l := t) (by omega)]
    by_cases h2 : k - t.length = 0
    · rw [h2]
      simp [isClip]
    · rw [List.getElem?_eq_none (by simp; omega)]

theorem silenceAt_append_silence (t : List TimelineItem) (d : ℕ) (k : ℕ) :
    silenceAt (t ++ [TimelineItem.silence d]) k =
      (silenceAt t k || decide (k = t.length)) := by
  unfold silenceAt
  by_cases h : k < t.length
  · rw [List.getElem?_append, if_pos h]
    have : ¬ k = t.length := by omega
    simp [this]
  · rw [List.getElem?_append, if_neg h]
    rw [List.getElem?_eq_none (l := t) (by omega)]
    by_cases h2 : k = t.length
    · subst h2
      simp [isSilence]
    · rw [List.getElem?_eq_none (by simp; omega)]
      simp [h2]

theorem getElem?_append_silence_of_lt (t : List TimelineItem) (d : ℕ)
    {k : ℕ} (h : k < t.length) :
    (t ++ [TimelineItem.silence d])[k]? = t[k]? := by
  rw [List.getElem?_append, if_pos h]

theorem altBody_facts (p : ℕ) :
    ∀ {t : List TimelineItem}, AltBody p t →
      t.length % 2 = 1 ∧
      (∀ i, clipAt t i = true ↔ (i < t.length ∧ i % 2 = 0)) ∧
      (∀ i, i < t.length → i % 2 = 1 →
        t[i]? = some (TimelineItem.silence p)) := by
  intro t h
  induction h with
  | last i d =>
    refine ⟨rfl, ?_, ?_⟩
    · intro k
      match k with
      | 0 => simp [clipAt, isClip]
      | k + 1 =>
        rw [clipAt_cons_succ]
        simp [clipAt]
    · intro i hi hpar
      simp only [List.length_singleton] at hi
      interval_cases i
      simp at hpar
  | step i d h ih =>
    obtain ⟨hlen, hclip, hsil⟩ := ih
    refine ⟨by simp [List.length_cons]; omega, ?_, ?_⟩
    · intro k
      match k with
      | 0 =>
        simp [clipAt_cons_zero, isClip, List.length_cons]
      | 1 =>
        rw [clipAt_cons_succ, clipAt_cons_zero]
        simp [isSilence, isClip]
      | k + 2 =>
        rw [clipAt_cons_succ, clipAt_cons_succ, hclip k]
        simp only [List.length_cons]
        omega
    · intro k hk hpar
      match k with
      | 0 => simp at hpar
      | 1 => simp
      | k + 2 =>
        rw [List.getElem?_cons_succ, List.getElem?_cons_succ]
        simp only [List.length_cons] at hk
        exact hsil k (by omega) (by omega)

theorem AltBody.length_pos {p : ℕ} {t : List TimelineItem}
    (h : AltBody p t) : 0 < t.length := by
  have := (altBody_facts p h).1
  omega

theorem altBody_silenceAt (p : ℕ) :
    ∀ {t : List TimelineItem}, AltBody p t →
      ∀ i, silenceAt t i = true ↔ (i < t.length ∧ i % 2 = 1) := by
  intro t h
  induction h with
  | last i d =>
    intro k
    match k with
    | 0 => simp [silenceAt_cons_zero, isSilence]
    | k + 1 =>
      rw [silenceAt_cons_succ]
      simp [silenceAt]
  | step i d h ih =>
    intro k
    match k with
    | 0 => simp [silenceAt_cons_zero, isSilence]
    | 1 =>
      rw [silenceAt_cons_succ, silenceAt_cons_zero]
      simp [isSilence, List.length_cons]
    | k + 2 =>
      rw [silenceAt_cons_succ, silenceAt_cons_succ, ih k]
      simp only [List.length_cons]
      omega

theorem isSilence_eq_false_of_isClip {x : TimelineItem}
    (h : isClip x = true) : isSilence x = false := by
  cases x <;> simp_all [isClip, isSilence]

theorem headIsSilence_eq_false_of_clipAt {t : List TimelineItem}
    (h : clipAt t 0 = true) : headIsSilence t = false := by
  unfold clipAt at h
  unfold headIsSilence
  rw [List.head?_eq_getElem?]
  cases hx : t[0]? with
  | none => rfl
  | some x =>
    rw [hx] at h
    exact isSilence_eq_false_of_isClip h

theorem lastIsSilence_eq_false_of_clipAt {t : List TimelineItem}
    (h : clipAt t (t.length - 1) = true) : lastIsSilence t = false := by
  unfold clipAt at h
  unfold lastIsSilence
  rw [List.getLast?_eq_getElem?]
  cases hx : t[t.length - 1]? with
  | none => rfl
  | some x =>
    rw [hx] at h
    exact isSilence_eq_false_of_isClip h

theorem silenceAt_eq_false_of_clipAt {t : List TimelineItem} {i : ℕ}
    (h : clipAt t i = true) : silenceAt t i = false := by
  unfold clipAt at h
  unfold silenceAt
  cases hx : t[i]? with
  | none => rfl
  | some x =>
    rw [hx] at h
    exact isSilence_eq_false_of_isClip h

/-- The Timeline invariant holds for an alternating body followed by the
optional outro silence, with no intro. -/
theorem invariant_noIntro (bo : Bool) (p : ℕ) {t : List TimelineItem}
    (h : AltBody p t) :
    timelineInvariant false bo p (t ++ outroPart bo) := by
  obtain ⟨hlen, hclip, hsil⟩ := altBody_facts p h
  have hsilAt := altBody_silenceAt p h
  have hL : 0 < t.length := h.length_pos
  have hhead : clipAt t 0 = true := (hclip 0).mpr ⟨hL, rfl⟩
  have hlast : clipAt t (t.length - 1) = true :=
    (hclip _).mpr ⟨by omega, by omega⟩
  cases bo with
  | false =>
    rw [show outroPart false = [] from rfl, List.append_nil]
    refine ⟨headIsSilence_eq_false_of_clipAt hhead,
      lastIsSilence_eq_false_of_clipAt hlast, ?_, ?_⟩
    · intro i j hij hci hcj hbet
      obtain ⟨hiL, hipar⟩ := (hclip i).mp hci
      obtain ⟨hjL, hjpar⟩ := (hclip j).mp hcj
      have hj2 : j = i + 2 := by
        by_contra hne
        have h2j : i + 2 < j := by omega
        exact hbet (i + 2) (by omega) h2j
          ((hclip (i + 2)).mpr ⟨by omega, by omega⟩)
      exact ⟨hj2, hsil (i + 1) (by omega) (by omega)⟩
    · intro i hs
      obtain ⟨hiL, hipar⟩ := (hsilAt i).mp hs
      rw [hsilAt (i + 1)]
      omega
  | true =>
    rw [show outroPart true = [TimelineItem.silence 2000] from rfl]
    have hclipu : ∀ i,
        clipAt (t ++ [TimelineItem.silence 2000]) i = true ↔
          (i < t.length ∧ i % 2 = 0) := by
      intro i
      rw [clipAt_append_silence]
      exact hclip i
    have hsilu : ∀ i,
        silenceAt (t ++ [TimelineItem.silence 2000]) i = true ↔
          ((i < t.length ∧ i % 2 = 1) ∨ i = t.length) := by
      intro i
      rw [silenceAt_append_silence]
      simp only [Bool.or_eq_true, decide_eq_true_eq, hsilAt i]
    refine ⟨?_, ?_, ?_, ?_⟩
    · have : clipAt (t ++ [TimelineItem.silence 2000]) 0 = true := by
        rw [clipAt_append_silence]
        exact hhead
      exact headIsSilence_eq_false_of_clipAt this
    · unfold lastIsSilence
      rw [List.getLast?_concat]
      rfl
    · intro i j hij hci hcj hbet
      obtain ⟨hiL, hipar⟩ := (hclipu i).mp hci
      obtain ⟨hjL, hjpar⟩ := (hclipu j).mp hcj
      have hj2 : j = i + 2 := by
        by_contra hne
        have h2j : i + 2 < j := by omega
        exact hbet (i + 2) (by omega) h2j
          ((hclipu (i + 2)).mpr ⟨by omega, by omega⟩)
      refine ⟨hj2, ?_⟩
      rw [getElem?_append_silence_of_lt t 2000 (by omega)]
      exact hsil (i + 1) (by omega) (by omega)
    · intro i hs
      rcases (hsilu i).mp hs with ⟨hiL, hipar⟩ | hiEnd
      · have : ¬ (((i + 1) < t.length ∧ (i + 1) % 2 = 1) ∨
            i + 1 = t.length) := by omega
        rw [hsilu (i + 1)]
        simpa using this
      · subst hiEnd
        unfold silenceAt
        rw [List.getElem?_eq_none (by simp)]
        simp

/-- Prepending an intro silence to a nonempty timeline that satisfies the
no-intro invariant yields the with-intro invariant. -/
theorem timelineInvariant_cons_silence (bo : Bool) (p d : ℕ)
    {v : List TimelineItem} (hne : v ≠ [])
    (hv : timelineInvariant false bo p v) :
    timelineInvariant true bo p (TimelineItem.silence d :: v) := by
  obtain ⟨h1, h2, h3, h4⟩ := hv
  refine ⟨?_, ?_, ?_, ?_⟩
  · simp [headIsSilence, isSilence]
  · unfold lastIsSilence at h2 ⊢
    cases v with
    | nil => exact absurd rfl hne
    | cons x v' => rw [List.getLast?_cons_cons]; exact h2
  · intro i j hij hci hcj hbet
    match i, j, hij with
    | 0, j, _ =>
      rw [clipAt_cons_zero] at hci
      simp [isClip] at hci
    | i' + 1, j' + 1, hij =>
      rw [clipAt_cons_succ] at hci hcj
      have hbet' : ∀ k, i' < k → k < j' → ¬ clipAt v k = true := by
        intro k hk1 hk2 hc
        exact hbet (k + 1) (by omega) (by omega)
          (by rwa [clipAt_cons_succ])
      obtain ⟨hj2, hsl⟩ := h3 i' j' (by omega) hci hcj hbet'
      refine ⟨by omega, ?_⟩
      rw [List.getElem?_cons_succ]
      exact hsl
  · intro i hs
    match i with
    | 0 =>
      rw [silenceAt_cons_succ]
      cases v with
      | nil => simp [silenceAt]
      | cons x v' =>
        rw [silenceAt_cons_zero]
        unfold headIsSilence at h1
        rw [List.head?_cons] at h1
        simp only [Bool.not_eq_true]
        exact h1
    | m + 1 =>
      rw [silenceAt_cons_succ] at hs
      rw [silenceAt_cons_succ]
      exact h4 m hs

/-- When the last script entry's speaker resolves (and every entry is
well-formed), the dialogue body is a strict clip/pause alternation ending
in a clip. -/
theorem altBody_bodyFrom (f : ℕ → String → ℕ) (N : ℕ) :
    ∀ (script : List RawEntry) (k : ℕ),
      script ≠ [] →
      k + script.length = N →
      (∀ e, script.getLast? = some e → resolvableEntry e = true) →
      AltBody 800 (bodyFrom f N k script) := by
  intro script
  induction script with
  | nil => intro k h; exact absurd rfl h
  | cons e rest ih =>
    intro k _ hlen hlast
    cases rest with
    | nil =>
      have he : resolvableEntry e = true := hlast e (by simp)
      simp only [List.length_cons, List.length_nil] at hlen
      have hk : ¬ k < N - 1 := by omega
      rw [show bodyFrom f N k [e] =
        itemsFor N k (f k (e.line.getD "")) ++ [] by simp [bodyFrom, he]]
      rw [List.append_nil, itemsFor, if_neg hk]
      exact AltBody.last k _
    | cons e2 rest2 =>
      have hlast' : ∀ e', (e2 :: rest2).getLast? = some e' →
          resolvableEntry e' = true := by
        intro e' he'
        exact hlast e' (by rw [List.getLast?_cons_cons]; exact he')
      simp only [List.length_cons] at hlen
      have hb := ih (k + 1) (by simp) (by simp; omega) hlast'
      by_cases he : resolvableEntry e
      · have hk : k < N - 1 := by omega
        rw [show bodyFrom f N k (e :: e2 :: rest2) =
          itemsFor N k (f k (e.line.getD "")) ++
            bodyFrom f N (k + 1) (e2 :: rest2) by simp [bodyFrom, he]]
        rw [itemsFor, if_pos hk]
        simp only [List.cons_append, List.singleton_append]
        exact AltBody.step k _ hb
      · rw [show bodyFrom f N k (e :: e2 :: rest2) =
          bodyFrom f N (k + 1) (e2 :: rest2) by simp [bodyFrom, he]]
        exact hb

/-- Witness for C1 at the two-line hello/world script with both flags. -/
theorem c1_render_counts_witness :
    ∃ st, generatePodcast (mkSuccess fun _ _ => 300) scriptHelloWorld
        "podcast.mp3" true true [] = .ok st ∧
      countClips st.audio = scriptHelloWorld.length ∧
      countPauses st.audio = scriptHelloWorld.length - 1 ∧
      clipOrdinals st.audio = List.range scriptHelloWorld.length ∧
      (true = true → st.audio.head? = some (TimelineItem.silence 3000)) ∧
      (true = true → st.audio.getLast? = some (TimelineItem.silence 2000)) :=
  c1_render_counts.1 (fun _ _ => 300) scriptHelloWorld "podcast.mp3"
    true true [] (by decide) (by decide)

/-- C2 (counterexample). The claimed Timeline invariant fails exactly in
the case the claim includes: a trailing script line skipped for an unknown
speaker.  With no outro requested, the rendered timeline of
`scriptTrailingUnknown` ends in the 800 ms pause silence, so its last item
is a silence although no outro was requested. -/
theorem c2_timeline_invariant_counterexample :
    (generatePodcast placeholderSynth scriptTrailingUnknown "podcast.mp3"
        false false []).state.audio =
      [TimelineItem.clip 0 300, TimelineItem.silence 800] ∧
    ¬ timelineInvariant false false 800
      [TimelineItem.clip 0 300, TimelineItem.silence 800] := by
  refine ⟨by decide, ?_⟩
  rintro ⟨-, h2, -, -⟩
  exact absurd h2 (by decide)

/-- C2 (amended). The Timeline invariant holds for every successful
combined render of a nonempty well-formed script whose *last* line's
speaker resolves: first/last items are silences exactly per the intro and
outro flags, adjacent clips are separated by exactly one 800 ms pause, and
no two silences are adjacent.  (The unamended claim fails when trailing
lines are skipped for unknown speakers, see the counterexample.) -/
theorem c2_timeline_invariant_amended (f : ℕ → String → ℕ)
    (script : List RawEntry) (out : String) (addIntro addOutro : Bool)
    (fs0 : FS)
    (hwf : ∀ e ∈ script, wellFormedEntry e = true)
    (hne : script ≠ [])
    (hlast : ∀ e, script.getLast? = some e → resolvableEntry e = true) :
    ∃ st, generatePodcast (mkSuccess f) script out addIntro addOutro fs0 =
        .ok st ∧ timelineInvariant addIntro addOutro 800 st.audio := by
  obtain ⟨fs', hrun⟩ :=
    generatePodcast_ok f script out addIntro addOutro fs0 hwf
  refine ⟨_, hrun, ?_⟩
  have hbody : AltBody 800 (bodyFrom f script.length 0 script) :=
    altBody_bodyFrom f script.length script 0 hne (by omega) hlast
  show timelineInvariant addIntro addOutro 800
    (finalTimeline f script addIntro addOutro)
  unfold finalTimeline
  cases addIntro with
  | false =>
    rw [show introPart false = [] from rfl, List.nil_append]
    exact invariant_noIntro addOutro 800 hbody
  | true =>
    rw [show introPart true = [TimelineItem.silence 3000] from rfl,
      List.append_assoc, List.singleton_append]
    have hvne : bodyFrom f script.length 0 script ++ outroPart addOutro
        ≠ [] := by
      intro hemp
      have h1 := hbody.length_pos
      obtain ⟨h2, -⟩ := List.append_eq_nil.mp hemp
      rw [h2] at h1
      simp at h1
    exact timelineInvariant_cons_silence addOutro 800 3000 hvne
      (invariant_noIntro addOutro 800 hbody)

/-- Witness for the amended C2 at the hello/world script with intro and
outro. -/
theorem c2_timeline_invariant_amended_witness :
    ∃ st, generatePodcast (mkSuccess fun _ _ => 300) scriptHelloWorld
        "podcast.mp3" true true [] = .ok st ∧
      timelineInvariant true true 800 st.audio :=
  c2_timeline_invariant_amended (fun _ _ => 300) scriptHelloWorld
    "podcast.mp3" true true [] (by decide) (by decide) (by decide)

/-- C3. If any synthesis job fails mid-run, the combined render aborts
with a failure result and exports no combined artifact (the output path
stays absent); and in segment mode a failure on line 2 of 3 leaves the
segment file already rendered for line 1 on disk with its contents
untouched. -/
theorem c3_synthesis_failure_aborts :
    (∀ (synth : ℕ → String → SynthOutcome) (script : List RawEntry)
      (out : String) (addIntro addOutro : Bool) (fs0 : FS),
      (∀ e ∈ script, wellFormedEntry e = true) →
      (∀ sp i, lookupFile fs0 (tempPath sp i) = none) →
      lookupFile fs0 out = none →
      (∃ p ∈ script.enum, resolvableEntry p.2 = true ∧
        synth p.1 (p.2.line.getD "") = .failure) →
      ∃ st, generatePodcast synth script out addIntro addOutro fs0 =
          .failed st ∧ lookupFile st.fs out = none) ∧
    (generateSegments ttsFailsAt1 scriptThreeLines "segs" []).1 =
      SegStatus.failed ∧
    lookupFile (generateSegments ttsFailsAt1 scriptThreeLines "segs" []).2
      (segPath "segs" 0 "MIGUEL" "Miguel") = some (.clip 300) := by
  refine ⟨?_, by decide, by decide⟩
  intro synth script out addIntro addOutro fs0 hwf htmp hout hex
  obtain ⟨st, hrun, hfs⟩ := generatePodcast_failed synth script out
    addIntro addOutro fs0 hwf htmp hex
  exact ⟨st, hrun, by rw [hfs]; exact hout⟩

/-- Witness for C3: the backend failing on line 2 of the 3-line script. -/
theorem c3_synthesis_failure_aborts_witness :
    ∃ st, generatePodcast synthFailsAt1 scriptThreeLines "podcast.mp3"
        true true [] = .failed st ∧ lookupFile st.fs "podcast.mp3" = none :=
  c3_synthesis_failure_aborts.1 synthFailsAt1 scriptThreeLines "podcast.mp3"
    true true [] (by decide) (fun _ _ => rfl) rfl
    ⟨(1, ⟨some "SAM", some "buenas"⟩), by decide, by decide, by decide⟩

/-- C4 (counterexample). Field validation is *not* performed by the
loader before synthesis: on the script whose second entry lacks its
`line` field, the run dies with a `KeyError` only when that entry is
reached, after one synthesis call has already been issued for the first
line — contradicting "no synthesis call is issued for any line of a
script that fails validation". -/
theorem c4_validation_counterexample :
    (generatePodcast placeholderSynth scriptMissingLine "podcast.mp3"
        true true []).isKeyError = true ∧
    (generatePodcast placeholderSynth scriptMissingLine "podcast.mp3"
        true true []).state.ttsCalls = 1 := by
  exact ⟨by decide, by decide⟩

/-- C4 (amended). The loader raises not-found and invalid-format
errors before any synthesis work begins, but a missing `speaker`/`line`
field is not validated by the loader: it surfaces as an uncaught error
only when that entry is reached during rendering, after exactly one
synthesis call per earlier resolvable entry. -/
theorem c4_validation_amended :
    (∀ (synth : ℕ → String → SynthOutcome) (out : String) (bi bo : Bool)
      (fs0 : FS),
      generatePodcastFromFile synth .missing out bi bo fs0 =
        .error .notFound ∧
      generatePodcastFromFile synth .invalidJson out bi bo fs0 =
        .error .formatError) ∧
    (∀ (f : ℕ → String → ℕ) (pre : List RawEntry) (bad : RawEntry)
      (tail : List RawEntry) (out : String) (bi bo : Bool) (fs0 : FS),
      (∀ e ∈ pre, wellFormedEntry e = true) →
      wellFormedEntry bad = false →
      ∃ st, generatePodcast (mkSuccess f) (pre ++ bad :: tail) out bi bo
          fs0 = .keyError st ∧
        st.ttsCalls = countRes pre) := by
  refine ⟨fun _ _ _ _ _ => ⟨rfl, rfl⟩, ?_⟩
  intro f pre bad tail out bi bo fs0 hwf hbad
  exact generatePodcast_keyError f pre bad tail out bi bo fs0 hwf hbad

/-- Witness for the amended C4 at the script whose second entry is missing
its `line` field. -/
theorem c4_validation_amended_witness :
    ∃ st, generatePodcast (mkSuccess fun _ _ => 300)
        ([(⟨some "MIGUEL", some "hola"⟩ : RawEntry)] ++
          (⟨some "SAM", none⟩ : RawEntry) :: []) "podcast.mp3"
        true true [] = .keyError st ∧
      st.ttsCalls = countRes [(⟨some "MIGUEL", some "hola"⟩ : RawEntry)] :=
  c4_validation_amended.2 (fun _ _ => 300) _ _ _ "podcast.mp3" true true []
    (by decide) (by decide)

/-- C7 (counterexample). The end-to-end scenario's stated total
duration is wrong for this code: the combined render's inter-speaker pause
is hard-coded to 800 ms (`add_pause(podcast_audio, 800)`), not the 1.0 s
the scenario asks for, so the total is `duration(A) + 800 ms + duration(B)`
= 1400 ms, not `duration(A) + 1000 ms + duration(B)` = 1600 ms. -/
theorem c7_hello_world_counterexample :
    totalDurationMs (generatePodcast placeholderSynth scriptHelloWorld
        "podcast.mp3" false false []).state.audio ≠
      placeholderDurMs "hello" + 1000 + placeholderDurMs "world" := by
  decide

/-- C7 (amended). For the two-line hello/world script with resolvable
speakers, no intro/outro, and the placeholder backend, the combined output
is exactly 2 clips separated by exactly 1 pause silence of the hard-coded
800 ms, and its total duration is
`duration(A) + 800 ms + duration(B)` (the pause is not configurable and is
800 ms, not 1.0 s). -/
theorem c7_hello_world_amended :
    (generatePodcast placeholderSynth scriptHelloWorld "podcast.mp3"
        false false []).state.audio =
      [TimelineItem.clip 0 (placeholderDurMs "hello"),
        TimelineItem.silence 800,
        TimelineItem.clip 1 (placeholderDurMs "world")] ∧
    countClips (generatePodcast placeholderSynth scriptHelloWorld
        "podcast.mp3" false false []).state.audio = 2 ∧
    countPauses (generatePodcast placeholderSynth scriptHelloWorld
        "podcast.mp3" false false []).state.audio = 1 ∧
    totalDurationMs (generatePodcast placeholderSynth scriptHelloWorld
        "podcast.mp3" false false []).state.audio =
      placeholderDurMs "hello" + 800 + placeholderDurMs "world" := by
  refine ⟨by decide, by decide, by decide, by decide⟩

/-- C8. The remote-API synthesis variant writes nothing on failure:
for every response other than a success, `text_to_speech` returns `False`
and leaves the filesystem exactly as it was (no partial file at the
destination). -/
theorem c8_api_failure_writes_nothing (resp : ApiResponse)
    (outputPath : String) (fs : FS)
    (h : ∀ c, resp ≠ ApiResponse.success c) :
    textToSpeechApi resp outputPath fs = (false, fs) := by
  cases resp with
  | success c => exact absurd rfl (h c)
  | transportError => rfl
  | httpError s => rfl

/-- Witness for C8 at a transport error. -/
theorem c8_api_failure_writes_nothing_witness :
    textToSpeechApi .transportError "out.mp3"
        [("seg.mp3", FileData.clip 300)] =
      (false, [("seg.mp3", FileData.clip 300)]) :=
  c8_api_failure_writes_nothing .transportError "out.mp3"
    [("seg.mp3", FileData.clip 300)] (fun c h => by cases h)

/-- C9. In the local-model variant's voice-cloning mode, an absent
reference sample falls back to the model's default voice and the call
still succeeds — but, contrary to the claim, the fallback is *not*
observable to the caller: the return value and the printed log lines are
identical to those of a cloned-voice success, even though a different
model invocation was used. -/
theorem c9_cloning_fallback_not_observable :
    (coquiTextToSpeech true false true coquiMiguel "out.wav").ok = true ∧
    (coquiTextToSpeech true false true coquiMiguel "out.wav").mode =
      CoquiMode.defaultVoice ∧
    (coquiTextToSpeech true true true coquiMiguel "out.wav").mode =
      CoquiMode.cloned ∧
    (coquiTextToSpeech true false true coquiMiguel "out.wav").visible =
      (coquiTextToSpeech true true true coquiMiguel "out.wav").visible := by
  refine ⟨rfl, rfl, rfl, rfl⟩

theorem lookupFile_removeSilenceArtifacts_artifact (fs : FS) (p : String)
    (h : isSilenceArtifact p = true) :
    lookupFile (removeSilenceArtifacts fs) p = none := by
  induction fs with
  | nil => rfl
  | cons e fs ih =>
    obtain ⟨q, d⟩ := e
    by_cases hq : isSilenceArtifact q = true
    · have h1 : removeSilenceArtifacts ((q, d) :: fs) =
          removeSilenceArtifacts fs := by
        simp [removeSilenceArtifacts, List.filter_cons, hq]
      rw [h1, ih]
    · have hne : ¬ q = p := fun hqp => hq (hqp ▸ h)
      have h1 : removeSilenceArtifacts ((q, d) :: fs) =
          (q, d) :: removeSilenceArtifacts fs := by
        simp [removeSilenceArtifacts, List.filter_cons,
          Bool.eq_false_iff.mpr hq]
      rw [h1]
      simp [lookupFile, hne, ih]

theorem lookupFile_removeSilenceArtifacts_other (fs : FS) (p : String)
    (h : isSilenceArtifact p = false) :
    lookupFile (removeSilenceArtifacts fs) p = lookupFile fs p := by
  induction fs with
  | nil => rfl
  | cons e fs ih =>
    obtain ⟨q, d⟩ := e
    by_cases hq : isSilenceArtifact q = true
    · have hne : ¬ q = p := fun hqp => by
        rw [hqp, h] at hq
        cases hq
      have h1 : removeSilenceArtifacts ((q, d) :: fs) =
          removeSilenceArtifacts fs := by
        simp [removeSilenceArtifacts, List.filter_cons, hq]
      rw [h1, ih]
      simp [lookupFile, hne]
    · have h1 : removeSilenceArtifacts ((q, d) :: fs) =
          (q, d) :: removeSilenceArtifacts fs := by
        simp [removeSilenceArtifacts, List.filter_cons,
          Bool.eq_false_iff.mpr hq]
      rw [h1]
      by_cases hqp : q = p <;> simp [lookupFile, hqp, ih]

/-- No temporary path can be the default combined-output path. -/
theorem tempPath_ne_podcast (sp : String) (i : ℕ) :
    tempPath sp i ≠ "podcast.mp3" := by
  intro h
  have hd := congrArg String.data h
  rw [tempPath] at hd
  simp only [String.data_append] at hd
  simp only [List.cons_append, List.nil_append, List.cons.injEq] at hd
  exact absurd hd.1 (by decide)

/-- C10 (counterexample).  The per-line temp file is *not* deleted on
every failure path: when `AudioSegment.from_mp3` (line 199) raises on the
just-written clip — between the temp-file write at line 197 and
`os.remove` at line 207 — the exception propagates out of the run and
`temp_MIGUEL_0.mp3` outlives it, still holding the synthesized clip. -/
theorem c10_temp_cleanup_counterexample :
    (generatePodcastD placeholderSynth (fun _ => false)
      [⟨some "MIGUEL", some "hola"⟩] "podcast.mp3" true true
      []).isDecodeError = true ∧
    lookupFile (generatePodcastD placeholderSynth (fun _ => false)
        [⟨some "MIGUEL", some "hola"⟩] "podcast.mp3" true true
        []).state.fs (tempPath "MIGUEL" 0) = some (FileData.clip 300) := by
  exact ⟨by decide, by decide⟩

/-- C10 (amended).  Temporary artifacts never outlive a run *except on
the clip-decode failure path*: in combined mode every per-line temp file
is deleted after its clip is folded in, on the success path and on the
synthesis-failure path (where a failed call writes nothing), so whenever
the run does not die in a clip-decode exception no `temp_*.mp3` remains;
and the Segment Combiner's file list and `temp_silence_*.mp3` artifacts
are all gone after it returns, whatever ffmpeg's exit status was. -/
theorem c10_temp_cleanup_amended :
    (∀ (synth : ℕ → String → SynthOutcome) (decodeOk : ℕ → Bool)
      (script : List RawEntry) (out : String) (bi bo : Bool) (fs0 : FS),
      (∀ sp i, lookupFile fs0 (tempPath sp i) = none) →
      (∀ sp i, tempPath sp i ≠ out) →
      (generatePodcastD synth decodeOk script out bi bo
        fs0).isDecodeError = false →
      ∀ sp i, lookupFile
        (generatePodcastD synth decodeOk script out bi bo fs0).state.fs
        (tempPath sp i) = none) ∧
    (∀ (listing : List String) (out : String) (pauseSec : ℚ)
      (ffmpegOk : Bool) (fs0 : FS),
      (∀ p, isCombinerArtifact p = true → lookupFile fs0 p = none) →
      ∀ p, isCombinerArtifact p = true →
        lookupFile (combinePodcastSegments listing out pauseSec ffmpegOk
          fs0).2 p = none) := by
  refine ⟨generatePodcastD_no_temp, ?_⟩
  intro listing out pauseSec ffmpegOk fs0 h0 p hp
  unfold combinePodcastSegments
  dsimp only
  by_cases hemp : (playbackOrder listing).isEmpty
  · rw [if_pos hemp]
    exact h0 p hp
  · rw [if_neg hemp]
    by_cases hsa : isSilenceArtifact p = true
    · exact lookupFile_removeSilenceArtifacts_artifact _ _ hsa
    · have hpl : p = fileListPath := by
        simp only [isCombinerArtifact, Bool.or_eq_true,
          decide_eq_true_eq] at hp
        rcases hp with heq | hsil
        · exact heq
        · exact absurd hsil hsa
      rw [lookupFile_removeSilenceArtifacts_other _ _
        (Bool.eq_false_iff.mpr hsa)]
      subst hpl
      rw [lookupFile_removeFile]
      simp

/-- Witness for the amended C10: a run whose decodes all succeed leaves
no temp file, and the combiner cleans up even when ffmpeg fails. -/
theorem c10_temp_cleanup_amended_witness :
    (∀ sp i, lookupFile
      (generatePodcastD placeholderSynth (fun _ => true) scriptHelloWorld
        "podcast.mp3" true true []).state.fs (tempPath sp i) = none) ∧
    (∀ p, isCombinerArtifact p = true →
      lookupFile (combinePodcastSegments ["002_b.mp3", "001_a.mp3"]
        "combined_podcast.mp3" 1 false []).2 p = none) := by
  constructor
  · exact c10_temp_cleanup_amended.1 placeholderSynth (fun _ => true)
      scriptHelloWorld "podcast.mp3" true true [] (fun _ _ => rfl)
      tempPath_ne_podcast (by decide)
  · exact c10_temp_cleanup_amended.2 ["002_b.mp3", "001_a.mp3"]
      "combined_podcast.mp3" 1 false [] (fun _ _ => rfl)

/-! Lexicographic ordering of segment file names (C5) -/

theorem natDigitsGo_one (fuel n : ℕ) (h10 : n < 10) (hf : 0 < fuel) :
    natDigitsGo fuel n = [n] := by
  cases fuel with
  | zero => omega
  | succ f => simp [natDigitsGo, h10]

theorem natDigitsGo_two (fuel n : ℕ) (h1 : 10 ≤ n) (h2 : n ≤ 99)
    (hf : n < fuel) : natDigitsGo fuel n = [n / 10, n % 10] := by
  cases fuel with
  | zero => omega
  | succ f =>
    rw [natDigitsGo, if_neg (by omega)]
    rw [natDigitsGo_one f (n / 10) (by omega) (by omega)]
    rfl

theorem natDigitsGo_three (fuel n : ℕ) (h1 : 100 ≤ n) (h2 : n ≤ 999)
    (hf : n < fuel) :
    natDigitsGo fuel n = [n / 100, n / 10 % 10, n % 10] := by
  cases fuel with
  | zero => omega
  | succ f =>
    rw [natDigitsGo, if_neg (by omega)]
    rw [natDigitsGo_two f (n / 10) (by omega) (by omega) (by omega)]
    rw [Nat.div_div_eq_div_mul]
    norm_num

theorem pad3_data (n : ℕ) (h : n ≤ 999) :
    (pad3 n).data =
      [digitChar (n / 100), digitChar (n / 10 % 10), digitChar (n % 10)] := by
  have h0 : digitChar 0 = '0' := by decide
  unfold pad3 natDigits
  by_cases h1 : n < 10
  · rw [natDigitsGo_one (n + 1) n h1 (by omega)]
    have e1 : n / 100 = 0 := by omega
    have e2 : n / 10 % 10 = 0 := by omega
    have e3 : n % 10 = n := by omega
    rw [e1, e2, e3, h0]
    rfl
  · by_cases h2 : n < 100
    · rw [natDigitsGo_two (n + 1) n (by omega) (by omega) (by omega)]
      have e1 : n / 100 = 0 := by omega
      have e2 : n / 10 % 10 = n / 10 := by omega
      rw [e1, e2, h0]
      rfl
    · rw [natDigitsGo_three (n + 1) n (by omega) h (by omega)]
      rfl

theorem digitChar_lt {d e : ℕ} (hd : d ≤ 9) (he : e ≤ 9) (h : d < e) :
    digitChar d < digitChar e := by
  interval_cases d <;> interval_cases e <;> first | omega | decide

/-- File names with distinct zero-padded numeric prefixes of at most three
digits compare in numeric order, whatever follows the prefix. -/
theorem segFileName_lt {i j : ℕ} (hij : i < j) (hj : j + 1 ≤ 999)
    (sp1 nm1 sp2 nm2 : String) :
    segFileName i sp1 nm1 < segFileName j sp2 nm2 := by
  suffices hlex : List.Lex (· < ·) (segFileName i sp1 nm1).toList
      (segFileName j sp2 nm2).toList by
    exact String.lt_iff_toList_lt.mpr hlex
  show List.Lex (· < ·) (segFileName i sp1 nm1).data
    (segFileName j sp2 nm2).data
  have hdata : ∀ (m : ℕ) (sp nm : String), m + 1 ≤ 999 →
      (segFileName m sp nm).data =
        digitChar ((m + 1) / 100) :: digitChar ((m + 1) / 10 % 10) ::
          digitChar ((m + 1) % 10) ::
            ("_" ++ sp ++ "_" ++ nm ++ ".mp3").data := by
    intro m sp nm hm
    show (pad3 (m + 1) ++ "_" ++ sp ++ "_" ++ nm ++ ".mp3").data = _
    simp only [String.data_append, List.append_assoc]
    rw [pad3_data (m + 1) hm]
    simp only [List.cons_append, List.nil_append, String.data_append]
  rw [hdata i sp1 nm1 (by omega), hdata j sp2 nm2 hj]
  have hdisj : (i + 1) / 100 < (j + 1) / 100 ∨
      ((i + 1) / 100 = (j + 1) / 100 ∧
        ((i + 1) / 10 % 10 < (j + 1) / 10 % 10 ∨
          ((i + 1) / 10 % 10 = (j + 1) / 10 % 10 ∧
            (i + 1) % 10 < (j + 1) % 10))) := by omega
  rcases hdisj with h1 | ⟨h1, h2 | ⟨h2, h3⟩⟩
  · exact List.Lex.rel (digitChar_lt (by omega) (by omega) h1)
  · rw [h1]
    exact List.Lex.cons (List.Lex.rel (digitChar_lt (by omega) (by omega) h2))
  · rw [h1, h2]
    exact List.Lex.cons (List.Lex.cons
      (List.Lex.rel (digitChar_lt (by omega) (by omega) h3)))

theorem producedSegNamesFrom_mem :
    ∀ (script : List RawEntry) (k : ℕ) (x : String),
      x ∈ producedSegNamesFrom k script →
      ∃ m sp nm, k ≤ m ∧ m < k + script.length ∧
        x = segFileName m sp nm := by
  intro script
  induction script with
  | nil => intro k x h; simp [producedSegNamesFrom] at h
  | cons e rest ih =>
    intro k x h
    rw [producedSegNamesFrom] at h
    rcases List.mem_append.mp h with hleft | hright
    · obtain ⟨esp, eln⟩ := e
      match esp with
      | none => simp at hleft
      | some sp =>
        dsimp only at hleft
        match hlk : simpleVoices.lookup sp with
        | none =>
          rw [hlk] at hleft
          simp at hleft
        | some nm =>
          rw [hlk] at hleft
          simp only [List.mem_singleton] at hleft
          exact ⟨k, sp, nm, le_rfl, by simp, hleft⟩
    · obtain ⟨m, sp, nm, hm1, hm2, hx⟩ := ih (k + 1) x hright
      exact ⟨m, sp, nm, by omega, by simp only [List.length_cons]; omega, hx⟩

theorem producedSegNamesFrom_sorted :
    ∀ (script : List RawEntry) (k : ℕ),
      k + script.length ≤ 999 →
      List.Sorted (· < ·) (producedSegNamesFrom k script) := by
  intro script
  induction script with
  | nil => intro k _; exact List.sorted_nil
  | cons e rest ih =>
    intro k hk
    simp only [List.length_cons] at hk
    have hrest : List.Sorted (· < ·) (producedSegNamesFrom (k + 1) rest) :=
      ih (k + 1) (by omega)
    rw [producedSegNamesFrom]
    obtain ⟨esp, eln⟩ := e
    match esp with
    | none => simpa using hrest
    | some sp =>
      dsimp only
      match hlk : simpleVoices.lookup sp with
      | none => simpa using hrest
      | some nm =>
        dsimp only
        rw [List.singleton_append, List.sorted_cons]
        refine ⟨?_, hrest⟩
        intro b hb
        obtain ⟨m, sp2, nm2, hm1, hm2, rfl⟩ :=
          producedSegNamesFrom_mem rest (k + 1) b hb
        exact segFileName_lt (by omega) (by omega) sp nm sp2 nm2

theorem isMp3_segFileName (i : ℕ) (sp nm : String) :
    isMp3 (segFileName i sp nm) = true := by
  unfold isMp3
  rw [List.isSuffixOf_iff_suffix]
  have hdata : (segFileName i sp nm).data =
      (pad3 (i + 1) ++ "_" ++ sp ++ "_" ++ nm).data ++
        (".mp3" : String).data := by
    show ((pad3 (i + 1) ++ "_" ++ sp ++ "_" ++ nm) ++ ".mp3").data = _
    rw [String.data_append]
  rw [hdata]
  exact List.suffix_append _ _

theorem producedSegNames_all_mp3 (script : List RawEntry) :
    ∀ x ∈ producedSegNames script, isMp3 x = true := by
  intro x hx
  obtain ⟨m, sp, nm, -, -, rfl⟩ := producedSegNamesFrom_mem script 0 x hx
  exact isMp3_segFileName m sp nm

/-- C5 (amended). The combiner's playback order is a pure function of
the lexicographic sort of the `*.mp3` file names (independent of directory
listing order); and for every script of at most 999 lines the lexicographic
order of the produced zero-padded segment file names equals script order,
so combining a permuted listing of the produced segments plays the clips in
script order.  (The unamended "for every script" fails at 1000 lines,
where the `{:03d}` prefix grows to four digits and `"1000_…" < "999_…"`.) -/
theorem c5_lexicographic_order_amended :
    (∀ l₁ l₂ : List String, l₁.Perm l₂ →
      playbackOrder l₁ = playbackOrder l₂) ∧
    (∀ (script : List RawEntry) (listing : List String),
      script.length ≤ 999 →
      listing.Perm (producedSegNames script) →
      playbackOrder listing = producedSegNames script) := by
  constructor
  · intro l₁ l₂ hperm
    unfold playbackOrder
    exact List.eq_of_perm_of_sorted
      ((List.perm_insertionSort _ _).trans
        ((hperm.filter isMp3).trans (List.perm_insertionSort _ _).symm))
      (List.sorted_insertionSort _ _) (List.sorted_insertionSort _ _)
  · intro script listing hlen hperm
    have hsorted : List.Sorted (· < ·) (producedSegNames script) :=
      producedSegNamesFrom_sorted script 0 (by omega)
    have hsorted' : List.Sorted (· ≤ ·) (producedSegNames script) :=
      List.Pairwise.imp (fun h => le_of_lt h) hsorted
    have hfil : (listing.filter isMp3).Perm (producedSegNames script) := by
      have h1 := hperm.filter isMp3
      rwa [List.filter_eq_self.mpr (producedSegNames_all_mp3 script)] at h1
    unfold playbackOrder
    exact List.eq_of_perm_of_sorted
      ((List.perm_insertionSort _ _).trans hfil)
      (List.sorted_insertionSort _ _) hsorted'

/-- Witness for the amended C5: a reversed listing of the two segment
files of the hello/world script combines back into script order. -/
theorem c5_lexicographic_order_amended_witness :
    playbackOrder
        [segFileName 1 "SAM" "Sam", segFileName 0 "MIGUEL" "Miguel"] =
      producedSegNames scriptHelloWorld :=
  c5_lexicographic_order_amended.2 scriptHelloWorld
    [segFileName 1 "SAM" "Sam", segFileName 0 "MIGUEL" "Miguel"]
    (by decide) (by decide)

theorem producedSegNamesFrom_replicate (n k : ℕ) :
    producedSegNamesFrom k
        (List.replicate n (⟨some "MIGUEL", some "hola"⟩ : RawEntry)) =
      (List.range' k n).map (fun m => segFileName m "MIGUEL" "Miguel") := by
  induction n generalizing k with
  | zero => rfl
  | succ n ih =>
    have hhead : producedSegNamesFrom k
        ((⟨some "MIGUEL", some "hola"⟩ : RawEntry) ::
          List.replicate n (⟨some "MIGUEL", some "hola"⟩ : RawEntry)) =
        segFileName k "MIGUEL" "Miguel" ::
          producedSegNamesFrom (k + 1)
            (List.replicate n (⟨some "MIGUEL", some "hola"⟩ : RawEntry)) :=
      rfl
    rw [List.replicate_succ, hhead, ih (k + 1), List.range'_succ,
      List.map_cons]

/-- C5 (counterexample). The produced segment file names are *not* in
lexicographic order for every script: on the 1000-line `scriptThousand`
the last file's prefix is the four-digit `1000`, which sorts before
`999`. -/
theorem c5_lexicographic_order_counterexample :
    ¬ ∀ script : List RawEntry,
        List.Sorted (· < ·) (producedSegNames script) := by
  intro hall
  have h := hall scriptThousand
  unfold scriptThousand producedSegNames at h
  rw [producedSegNamesFrom_replicate 1000 0] at h
  have h' : List.Pairwise (· < ·)
      ((List.range' 0 1000).map
        (fun m => segFileName m "MIGUEL" "Miguel")) := h
  rw [List.pairwise_map] at h'
  have h2 := List.pairwise_iff_getElem.mp h' 998 999 (by simp) (by simp)
    (by omega)
  rw [List.getElem_range', List.getElem_range'] at h2
  simp only [Nat.zero_add, Nat.one_mul] at h2
  have hlt : segFileName 999 "MIGUEL" "Miguel" <
      segFileName 998 "MIGUEL" "Miguel" := by
    have d1 : (segFileName 999 "MIGUEL" "Miguel").data =
        '1' :: "000_MIGUEL_Miguel.mp3".data := rfl
    have d2 : (segFileName 998 "MIGUEL" "Miguel").data =
        '9' :: "99_MIGUEL_Miguel.mp3".data := rfl
    have hlex : List.Lex (· < ·) (segFileName 999 "MIGUEL" "Miguel").toList
        (segFileName 998 "MIGUEL" "Miguel").toList := by
      show List.Lex (· < ·) (segFileName 999 "MIGUEL" "Miguel").data
        (segFileName 998 "MIGUEL" "Miguel").data
      rw [d1, d2]
      exact List.Lex.rel (by decide)
    exact String.lt_iff_toList_lt.mpr hlex
  exact absurd h2 (lt_asymm hlt)

end DocToPodcast
